import Mathlib

/-!
Verification of the timeline / movement / gap / cluster analysis core of the
`forensic-gps-suite` repository (Python), against its natural-language
specification.

Shallow embedding conventions, used throughout:

* Python `datetime` values are modelled at two levels, matching the two parsing
  routes of the source:
  - `PyDT` models a datetime obtained from `datetime.fromisoformat` (used by
    `_parse_iso` in `timeline_builder.py`, `movement_analysis.py`,
    `gap_detection.py`).  Its field `naive` is the linearization (in seconds,
    rationals to cover fractional seconds) of the six naive calendar fields on
    the proleptic Gregorian line; this linearization is strictly monotone in the
    field-lexicographic order Python uses for naive comparison and preserves
    differences, so comparison and subtraction of datetimes are faithfully
    mirrored on it.  `off` is `utcoffset()` in seconds (`none` for a naive
    datetime).
  - `ExifDT` (defined later) models a datetime obtained from
    `datetime.strptime` with the EXIF format lists of the source; there the
    calendar fields are kept explicitly because the normalizer renders them
    back into ISO strings.
* ISO strings that travel in the record dictionaries and whose only use is to
  be fed to `_parse_iso` are modelled by their parse outcome (`IsoStr`): the
  empty string, an unparsable non-empty string, or a well-formed string
  carrying the datetime it denotes (a `"Z"` suffix is the `off = some 0`
  case, matching the `replace("Z", "+00:00")` preprocessing).
* Python raises `TypeError` when comparing or subtracting an offset-naive and
  an offset-aware datetime; fallible operations are therefore embedded in
  `Except PyErr`.
* Python floats are modelled by real numbers; `float` trigonometry has no
  executable counterpart, so the distance/speed layer is `noncomputable`.
  `round(x, k)` (banker's rounding on the shortest decimal representation of
  a float) is modelled by `roundTo k` (rounding to `k` decimal places); no
  claim below depends on the tie-breaking behaviour of rounding.
-/

/-- Decidable equality for `Except`, used to evaluate the embedded fallible
operations on concrete inputs. -/
instance {e a : Type} [DecidableEq e] [DecidableEq a] : DecidableEq (Except e a) := fun x y =>
  match x, y with
  | .ok u, .ok v =>
    if h : u = v then .isTrue (by rw [h]) else .isFalse (fun c => by cases c; exact h rfl)
  | .error u, .error v =>
    if h : u = v then .isTrue (by rw [h]) else .isFalse (fun c => by cases c; exact h rfl)
  | .ok _, .error _ => .isFalse (fun c => by cases c)
  | .error _, .ok _ => .isFalse (fun c => by cases c)

/-- Exceptions of the Python fragments that can raise: mixing offset-naive and
offset-aware datetimes in a comparison or a subtraction, and date arithmetic
leaving the `datetime` year range. -/
inductive PyErr where
  | mixedCompare
  | mixedSub
  | dateOverflow
deriving DecidableEq, Repr

/-- Python's `round(x, k)` modelled on an ordered field: round `x` to `k`
decimal places (half-up where Python rounds half-to-even on the decimal
representation of the float; no claim depends on ties). -/
def roundTo {α : Type} [LinearOrderedField α] [FloorRing α] (k : ℕ) (x : α) : α :=
  ((round (x * 10 ^ k) : ℤ) : α) / 10 ^ k

/-- Python's `int(q)` on a float/rational: truncation toward zero. -/
def pyInt (q : ℚ) : ℤ :=
  if 0 ≤ q then ⌊q⌋ else ⌈q⌉

/-- A Python `datetime` as produced by `datetime.fromisoformat`: the naive
calendar reading linearized to seconds, plus the UTC offset in seconds when the
datetime is offset-aware. -/
structure PyDT where
  naive : ℚ
  off : Option ℚ
deriving DecidableEq, Repr

/-- The instant a `PyDT` denotes for an aware value (naive reading minus
offset), and the naive reading itself for a naive value.  Two datetimes of the
same awareness kind compare and subtract exactly by this quantity. -/
def PyDT.inst (d : PyDT) : ℚ :=
  d.naive - d.off.getD 0

/-- Python `a < b` on datetimes: naive/naive compares the calendar fields
(equivalently their linearization), aware/aware compares UTC instants, and a
mixed comparison raises `TypeError`. -/
def pyLt (a b : PyDT) : Except PyErr Bool :=
  match a.off, b.off with
  | none, none => .ok (decide (a.naive < b.naive))
  | some oa, some ob => .ok (decide (a.naive - oa < b.naive - ob))
  | _, _ => .error .mixedCompare

/-- Python `a == b` on datetimes: a mixed aware/naive equality test returns
`False` (it does not raise). -/
def pyEq (a b : PyDT) : Bool :=
  match a.off, b.off with
  | none, none => decide (a.naive = b.naive)
  | some oa, some ob => decide (a.naive - oa = b.naive - ob)
  | _, _ => false

/-- Python `(b - a).total_seconds()` on datetimes: defined for two naive or two
aware values, raises `TypeError` on a mixed pair. -/
def pyDelta (a b : PyDT) : Except PyErr ℚ :=
  match a.off, b.off with
  | none, none => .ok (b.naive - a.naive)
  | some oa, some ob => .ok ((b.naive - ob) - (a.naive - oa))
  | _, _ => .error .mixedSub

/-- A string field holding an ISO date-time (`dt_utc` / `dt_naive_iso` in the
row dictionaries), modelled by its `datetime.fromisoformat` parse outcome:
empty, non-empty but unparsable, or well-formed denoting `d` (a trailing `"Z"`
is `off = some 0` via the source's `replace("Z", "+00:00")`). -/
inductive IsoStr where
  | empty
  | invalid
  | valid (d : PyDT)
deriving DecidableEq, Repr

/-- Truthiness of the modelled string (`""` is falsy, everything else truthy). -/
def IsoStr.truthy : IsoStr → Bool
  | .empty => false
  | _ => true

/-- A record/row as consumed by `timeline_builder.py`, `movement_analysis.py`
and `gap_detection.py`: coordinates (possibly missing), the two time strings,
and the `timeline_index` annotation added by the builder (absent on raw rows).
Other dictionary keys are never read by these modules and are omitted. -/
structure Row where
  lat : Option ℝ
  lon : Option ℝ
  dt_utc : IsoStr
  dt_naive_iso : IsoStr
  timeline_index : Option ℕ

/-- The `a.get("dt_utc") or a.get("dt_naive_iso") or ""` fallback used for the
report fields `from_dt` / `to_dt`. -/
def Row.reportDt (a : Row) : IsoStr :=
  if a.dt_utc.truthy then a.dt_utc
  else if a.dt_naive_iso.truthy then a.dt_naive_iso
  else .empty

namespace MovementAnalysis

/-- Embedding of `movement_analysis._parse_iso`: parse an ISO string, `None`
on the empty string or a parse failure. -/
def _parse_iso : IsoStr → Option PyDT
  | .empty => none
  | .invalid => none
  | .valid d => some d

/-- Embedding of `movement_analysis.haversine_m`'s `math.radians`. -/
noncomputable def radians (x : ℝ) : ℝ :=
  x * Real.pi / 180

/-- Python `math.atan2 y x`, via the argument of the complex number `x + y i`
(same quadrant conventions and range). -/
noncomputable def atan2 (y x : ℝ) : ℝ :=
  Complex.arg ⟨x, y⟩

/-- Embedding of `movement_analysis.haversine_m` (floats as reals). -/
noncomputable def haversine_m (lat1 lon1 lat2 lon2 : ℝ) : ℝ :=
  let R : ℝ := 6371000
  let phi1 := radians lat1
  let phi2 := radians lat2
  let dphi := radians (lat2 - lat1)
  let dlon := radians (lon2 - lon1)
  let a := Real.sin (dphi / 2) ^ 2 + Real.cos phi1 * Real.cos phi2 * Real.sin (dlon / 2) ^ 2
  R * 2 * atan2 (Real.sqrt a) (Real.sqrt (1 - a))

/-- Embedding of `movement_analysis._pick_pair_dt`: the shared time-basis rule
(`dt_utc` only if both points parse, else `dt_naive_iso` only if both parse,
else no basis). -/
def _pick_pair_dt (a b : Row) : Option PyDT × Option PyDT × String :=
  let a_utc := _parse_iso a.dt_utc
  let b_utc := _parse_iso b.dt_utc
  if a_utc.isSome ∧ b_utc.isSome then (a_utc, b_utc, "dt_utc")
  else
    let a_nv := _parse_iso a.dt_naive_iso
    let b_nv := _parse_iso b.dt_naive_iso
    if a_nv.isSome ∧ b_nv.isSome then (a_nv, b_nv, "dt_naive_iso")
    else (none, none, "")

/-- The three thresholds of `analyze_movement` (`min_stop_duration_s` is an
int in the source; it is only ever compared with the rational `delta_s`). -/
structure MovementCfg where
  stop_speed_kmh : ℝ
  jump_speed_kmh : ℝ
  min_stop_duration_s : ℚ

/-- One segment of the `analyze_movement` output (blank float cells of the
Python dict are `none`). -/
structure Segment where
  from_index : Option ℕ
  to_index : Option ℕ
  from_dt : IsoStr
  to_dt : IsoStr
  distance_m : Option ℝ
  delta_s : Option ℚ
  speed_kmh : Option ℝ
  movement : String
  dt_basis : String

/-- The body of `analyze_movement`'s loop for one adjacent pair `(a, b)`,
exactly as in the source: missing coordinates short-circuit, the distance is
computed unconditionally otherwise, then the time basis decides `delta_s`,
`speed_kmh` and the classification. -/
noncomputable def segOfPair (cfg : MovementCfg) (a b : Row) : Except PyErr Segment :=
  let a_t := a.reportDt
  let b_t := b.reportDt
  match a.lat, a.lon, b.lat, b.lon with
  | some lat1, some lon1, some lat2, some lon2 =>
    let dist := haversine_m lat1 lon1 lat2 lon2
    match _pick_pair_dt a b with
    | (some dt_a, some dt_b, basis) => do
      let delta_s ← pyDelta dt_a dt_b
      if delta_s ≤ 0 then
        .ok { from_index := a.timeline_index, to_index := b.timeline_index,
              from_dt := a_t, to_dt := b_t,
              distance_m := some (roundTo 2 dist), delta_s := some (roundTo 3 delta_s),
              speed_kmh := none, movement := "unknown", dt_basis := basis }
      else
        let speed_kmh : ℝ := dist / (delta_s : ℝ) * 3.6
        let movement : String :=
          if cfg.jump_speed_kmh ≤ speed_kmh then "jump"
          else if speed_kmh ≤ cfg.stop_speed_kmh ∧ cfg.min_stop_duration_s ≤ delta_s then "stop"
          else "move"
        .ok { from_index := a.timeline_index, to_index := b.timeline_index,
              from_dt := a_t, to_dt := b_t,
              distance_m := some (roundTo 2 dist), delta_s := some (roundTo 3 delta_s),
              speed_kmh := some (roundTo 3 speed_kmh), movement := movement, dt_basis := basis }
    | _ =>
      .ok { from_index := a.timeline_index, to_index := b.timeline_index,
            from_dt := a_t, to_dt := b_t,
            distance_m := some (roundTo 2 dist), delta_s := none,
            speed_kmh := none, movement := "unknown", dt_basis := "" }
  | _, _, _, _ =>
    .ok { from_index := a.timeline_index, to_index := b.timeline_index,
          from_dt := a_t, to_dt := b_t,
          distance_m := none, delta_s := none,
          speed_kmh := none, movement := "unknown", dt_basis := "" }

/-- Embedding of `analyze_movement`: the `for i in range(1, len(timeline))`
loop visits exactly the adjacent pairs `timeline.zip timeline.tail`. -/
noncomputable def analyze_movement (timeline : List Row) (cfg : MovementCfg) :
    Except PyErr (List Segment) :=
  (timeline.zip timeline.tail).mapM (fun p => segOfPair cfg p.1 p.2)

end MovementAnalysis

namespace GapDetection

/-- Embedding of `gap_detection._parse_iso` (textually identical to the one in
`movement_analysis.py`). -/
def _parse_iso : IsoStr → Option PyDT
  | .empty => none
  | .invalid => none
  | .valid d => some d

/-- Embedding of `gap_detection._pick_pair_dt` (textually identical to the one
in `movement_analysis.py`). -/
def _pick_pair_dt (a b : Row) : Option PyDT × Option PyDT × String :=
  let a_utc := _parse_iso a.dt_utc
  let b_utc := _parse_iso b.dt_utc
  if a_utc.isSome ∧ b_utc.isSome then (a_utc, b_utc, "dt_utc")
  else
    let a_nv := _parse_iso a.dt_naive_iso
    let b_nv := _parse_iso b.dt_naive_iso
    if a_nv.isSome ∧ b_nv.isSome then (a_nv, b_nv, "dt_naive_iso")
    else (none, none, "")

/-- The three gap thresholds (ints in the source, only ever compared with the
rational elapsed time). -/
structure GapCfg where
  gap_s : ℚ
  major_gap_s : ℚ
  critical_gap_s : ℚ

/-- One emitted gap record. -/
structure Gap where
  after_index : Option ℕ
  before_index : Option ℕ
  from_dt : IsoStr
  to_dt : IsoStr
  gap_seconds : ℤ
  gap_level : String
  dt_basis : String

/-- The severity computation of `detect_gaps` for elapsed time `delta`
(`critical` from `critical_gap_s` upward, else `major` from `major_gap_s`
upward, else `gap`; both thresholds inclusive). -/
def gapLevel (cfg : GapCfg) (delta : ℚ) : String :=
  if cfg.critical_gap_s ≤ delta then "critical"
  else if cfg.major_gap_s ≤ delta then "major"
  else "gap"

/-- The body of `detect_gaps`' loop for one adjacent pair: `none` models the
`continue` paths (no shared basis, or elapsed time not above `gap_s`). -/
def gapOfPair (cfg : GapCfg) (a b : Row) : Except PyErr (Option Gap) :=
  match _pick_pair_dt a b with
  | (some dt_a, some dt_b, basis) => do
    let delta ← pyDelta dt_a dt_b
    if delta ≤ cfg.gap_s then
      pure none
    else
      pure (some { after_index := a.timeline_index, before_index := b.timeline_index,
                   from_dt := a.reportDt, to_dt := b.reportDt,
                   gap_seconds := pyInt delta, gap_level := gapLevel cfg delta,
                   dt_basis := basis })
  | _ => pure none

/-- Embedding of `detect_gaps`: the loop over adjacent pairs, keeping only the
pairs that emit a gap. -/
def detect_gaps (timeline : List Row) (cfg : GapCfg) : Except PyErr (List Gap) := do
  let os ← (timeline.zip timeline.tail).mapM (fun p => gapOfPair cfg p.1 p.2)
  pure os.reduceOption

end GapDetection

namespace GpsForensic

/-- Embedding of `gps_forensic.haversine_m` (textually identical formula to
`movement_analysis.haversine_m`). -/
noncomputable def haversine_m (lat1 lon1 lat2 lon2 : ℝ) : ℝ :=
  let R : ℝ := 6371000
  let phi1 := MovementAnalysis.radians lat1
  let phi2 := MovementAnalysis.radians lat2
  let dphi := MovementAnalysis.radians (lat2 - lat1)
  let dlon := MovementAnalysis.radians (lon2 - lon1)
  let a := Real.sin (dphi / 2) ^ 2 + Real.cos phi1 * Real.cos phi2 * Real.sin (dlon / 2) ^ 2
  R * 2 * MovementAnalysis.atan2 (Real.sqrt a) (Real.sqrt (1 - a))

end GpsForensic

namespace GapDetection

/-- Severity tiers ordered for the monotonicity statement:
`gap` < `major` < `critical`. -/
def sevRank : String → ℕ
  | "critical" => 2
  | "major" => 1
  | _ => 0

end GapDetection

/-- Auxiliary: `sin (-x / 2) ^ 2 = sin (x / 2) ^ 2`. -/
lemma sin_sq_half_neg (x : ℝ) : Real.sin (-x / 2) ^ 2 = Real.sin (x / 2) ^ 2 := by
  rw [neg_div, Real.sin_neg]
  ring

/-- Auxiliary: the haversine formula at two identical points yields 0. -/
lemma haversine_self (lat lon : ℝ) : MovementAnalysis.haversine_m lat lon lat lon = 0 := by
  simp only [MovementAnalysis.haversine_m, MovementAnalysis.radians, MovementAnalysis.atan2]
  norm_num
  have h1 : ({ re := 1, im := 0 } : ℂ) = (1 : ℂ) := Complex.ext rfl rfl
  rw [h1, Complex.arg_one]

/-- C9: Haversine distance is symmetric: for all coordinate pairs,
`haversine_m lat1 lon1 lat2 lon2 = haversine_m lat2 lon2 lat1 lon1`, for both
copies of the function (`movement_analysis.py` and `gps_forensic.py`). -/
theorem claim_C9_haversine_symm (lat1 lon1 lat2 lon2 : ℝ) :
    MovementAnalysis.haversine_m lat1 lon1 lat2 lon2 =
      MovementAnalysis.haversine_m lat2 lon2 lat1 lon1 ∧
    GpsForensic.haversine_m lat1 lon1 lat2 lon2 =
      GpsForensic.haversine_m lat2 lon2 lat1 lon1 := by
  have key : ∀ p q u v : ℝ,
      MovementAnalysis.haversine_m p q u v = MovementAnalysis.haversine_m u v p q := by
    intro p q u v
    simp only [MovementAnalysis.haversine_m, MovementAnalysis.radians]
    have e1 : (p - u) * Real.pi / 180 = -((u - p) * Real.pi / 180) := by ring
    have e2 : (q - v) * Real.pi / 180 = -((v - q) * Real.pi / 180) := by ring
    rw [e1, e2, sin_sq_half_neg, sin_sq_half_neg,
      mul_comm (Real.cos (u * Real.pi / 180)) (Real.cos (p * Real.pi / 180))]
  exact ⟨key lat1 lon1 lat2 lon2, key lat1 lon1 lat2 lon2⟩

/-- C3: movement analysis and gap detection pick the time basis by the same
function; when no basis exists, the segment has movement `"unknown"`, blank
`delta_s` and `speed_kmh` (with the distance still reported exactly when both
points carry coordinates), and the gap detector emits nothing for the pair. -/
theorem claim_C3_time_basis (cfgM : MovementAnalysis.MovementCfg)
    (cfgG : GapDetection.GapCfg) (a b : Row) :
    MovementAnalysis._pick_pair_dt a b = GapDetection._pick_pair_dt a b ∧
    (MovementAnalysis._pick_pair_dt a b = (none, none, "") →
      GapDetection.gapOfPair cfgG a b = .ok none ∧
      MovementAnalysis.segOfPair cfgM a b =
        .ok { from_index := a.timeline_index, to_index := b.timeline_index,
              from_dt := a.reportDt, to_dt := b.reportDt,
              distance_m :=
                match a.lat, a.lon, b.lat, b.lon with
                | some lat1, some lon1, some lat2, some lon2 =>
                    some (roundTo 2 (MovementAnalysis.haversine_m lat1 lon1 lat2 lon2))
                | _, _, _, _ => none,
              delta_s := none, speed_kmh := none,
              movement := "unknown", dt_basis := "" }) := by
  refine ⟨rfl, fun h => ⟨?_, ?_⟩⟩
  · have h2 : GapDetection._pick_pair_dt a b = (none, none, "") := h
    simp only [GapDetection.gapOfPair, h2]
    rfl
  · unfold MovementAnalysis.segOfPair
    rcases ha : a.lat with _ | lat1 <;> rcases hb : a.lon with _ | lon1 <;>
      rcases hc : b.lat with _ | lat2 <;> rcases hd : b.lon with _ | lon2 <;>
      simp [h]

/-- Evaluation of `segOfPair` on a pair with coordinates, a shared basis and
positive elapsed time (the generic branch of `analyze_movement`). -/
lemma segOfPair_eval (cfg : MovementAnalysis.MovementCfg) (a b : Row)
    (lat1 lon1 lat2 lon2 : ℝ) (da db : PyDT) (basis : String) (δ : ℚ)
    (hla : a.lat = some lat1) (hlo : a.lon = some lon1)
    (hlb : b.lat = some lat2) (hlob : b.lon = some lon2)
    (hpick : MovementAnalysis._pick_pair_dt a b = (some da, some db, basis))
    (hdelta : pyDelta da db = .ok δ) (hpos : 0 < δ) :
    MovementAnalysis.segOfPair cfg a b =
      .ok { from_index := a.timeline_index, to_index := b.timeline_index,
            from_dt := a.reportDt, to_dt := b.reportDt,
            distance_m := some (roundTo 2 (MovementAnalysis.haversine_m lat1 lon1 lat2 lon2)),
            delta_s := some (roundTo 3 δ),
            speed_kmh := some (roundTo 3
              (MovementAnalysis.haversine_m lat1 lon1 lat2 lon2 / (δ : ℝ) * 3.6)),
            movement :=
              if cfg.jump_speed_kmh ≤
                  MovementAnalysis.haversine_m lat1 lon1 lat2 lon2 / (δ : ℝ) * 3.6 then "jump"
              else if MovementAnalysis.haversine_m lat1 lon1 lat2 lon2 / (δ : ℝ) * 3.6 ≤
                    cfg.stop_speed_kmh ∧ cfg.min_stop_duration_s ≤ δ then "stop"
              else "move",
            dt_basis := basis } := by
  unfold MovementAnalysis.segOfPair
  rw [hla, hlo, hlb, hlob, hpick]
  simp only [hdelta, bind, Except.bind]
  rw [if_neg (not_le.mpr hpos)]

/-- C5: for an adjacent pair with coordinates on both points, a shared time
basis and positive elapsed time, the segment reports
`speed_kmh = distance_m / delta_s * 3.6` and is classified `jump` iff the speed
reaches `jump_speed_kmh` (the jump check strictly precedes the stop check),
else `stop` iff the speed is at most `stop_speed_kmh` and the elapsed time at
least `min_stop_duration_s`, else `move`. -/
theorem claim_C5_movement_classification (cfg : MovementAnalysis.MovementCfg) (a b : Row)
    (lat1 lon1 lat2 lon2 : ℝ) (da db : PyDT) (basis : String) (δ : ℚ)
    (hla : a.lat = some lat1) (hlo : a.lon = some lon1)
    (hlb : b.lat = some lat2) (hlob : b.lon = some lon2)
    (hpick : MovementAnalysis._pick_pair_dt a b = (some da, some db, basis))
    (hdelta : pyDelta da db = .ok δ) (hpos : 0 < δ) :
    MovementAnalysis.segOfPair cfg a b =
      .ok { from_index := a.timeline_index, to_index := b.timeline_index,
            from_dt := a.reportDt, to_dt := b.reportDt,
            distance_m := some (roundTo 2 (MovementAnalysis.haversine_m lat1 lon1 lat2 lon2)),
            delta_s := some (roundTo 3 δ),
            speed_kmh := some (roundTo 3
              (MovementAnalysis.haversine_m lat1 lon1 lat2 lon2 / (δ : ℝ) * 3.6)),
            movement :=
              if cfg.jump_speed_kmh ≤
                  MovementAnalysis.haversine_m lat1 lon1 lat2 lon2 / (δ : ℝ) * 3.6 then "jump"
              else if MovementAnalysis.haversine_m lat1 lon1 lat2 lon2 / (δ : ℝ) * 3.6 ≤
                    cfg.stop_speed_kmh ∧ cfg.min_stop_duration_s ≤ δ then "stop"
              else "move",
            dt_basis := basis } ∧
    (cfg.jump_speed_kmh ≤ MovementAnalysis.haversine_m lat1 lon1 lat2 lon2 / (δ : ℝ) * 3.6 →
      ∀ s, MovementAnalysis.segOfPair cfg a b = .ok s → s.movement = "jump") := by
  have h1 := segOfPair_eval cfg a b lat1 lon1 lat2 lon2 da db basis δ
    hla hlo hlb hlob hpick hdelta hpos
  refine ⟨h1, fun hj s hs => ?_⟩
  rw [h1] at hs
  cases hs
  simp only [if_pos hj]

/-- C6: `detect_gaps` emits a gap for an adjacent pair iff the pair shares a
time basis and its elapsed time strictly exceeds `gap_s`; severity is
`critical` from `critical_gap_s` upward (threshold inclusive), else `major`
from `major_gap_s` upward, else `gap`; with ascending thresholds severity is
monotone non-decreasing in the elapsed time. -/
theorem claim_C6_gap_emission (cfg : GapDetection.GapCfg) (a b : Row) :
    (GapDetection._pick_pair_dt a b = (none, none, "") ∨
      ∃ da db basis, GapDetection._pick_pair_dt a b = (some da, some db, basis)) ∧
    (GapDetection._pick_pair_dt a b = (none, none, "") →
      GapDetection.gapOfPair cfg a b = .ok none) ∧
    (∀ da db basis δ, GapDetection._pick_pair_dt a b = (some da, some db, basis) →
      pyDelta da db = .ok δ →
      (δ ≤ cfg.gap_s → GapDetection.gapOfPair cfg a b = .ok none) ∧
      (cfg.gap_s < δ → GapDetection.gapOfPair cfg a b =
        .ok (some { after_index := a.timeline_index, before_index := b.timeline_index,
                    from_dt := a.reportDt, to_dt := b.reportDt,
                    gap_seconds := pyInt δ, gap_level := GapDetection.gapLevel cfg δ,
                    dt_basis := basis }))) ∧
    (∀ δ : ℚ,
      (cfg.critical_gap_s ≤ δ → GapDetection.gapLevel cfg δ = "critical") ∧
      (δ < cfg.critical_gap_s → cfg.major_gap_s ≤ δ → GapDetection.gapLevel cfg δ = "major") ∧
      (δ < cfg.critical_gap_s → δ < cfg.major_gap_s → GapDetection.gapLevel cfg δ = "gap")) ∧
    (cfg.major_gap_s ≤ cfg.critical_gap_s → ∀ δ₁ δ₂ : ℚ, δ₁ ≤ δ₂ →
      GapDetection.sevRank (GapDetection.gapLevel cfg δ₁) ≤
        GapDetection.sevRank (GapDetection.gapLevel cfg δ₂)) := by
  refine ⟨?_, ?_, ?_, ?_, ?_⟩
  · unfold GapDetection._pick_pair_dt
    dsimp only
    split_ifs with h1 h2
    · rcases Option.isSome_iff_exists.mp h1.1 with ⟨da, hda⟩
      rcases Option.isSome_iff_exists.mp h1.2 with ⟨db, hdb⟩
      exact Or.inr ⟨da, db, "dt_utc", by rw [hda, hdb]⟩
    · rcases Option.isSome_iff_exists.mp h2.1 with ⟨da, hda⟩
      rcases Option.isSome_iff_exists.mp h2.2 with ⟨db, hdb⟩
      exact Or.inr ⟨da, db, "dt_naive_iso", by rw [hda, hdb]⟩
    · exact Or.inl rfl
  · intro h
    simp only [GapDetection.gapOfPair, h]
    rfl
  · intro da db basis δ hpick hdelta
    constructor
    · intro hle
      simp only [GapDetection.gapOfPair, hpick, hdelta, bind, Except.bind]
      rw [if_pos hle]
      rfl
    · intro hlt
      simp only [GapDetection.gapOfPair, hpick, hdelta, bind, Except.bind]
      rw [if_neg (not_le.mpr hlt)]
      rfl
  · intro δ
    unfold GapDetection.gapLevel
    refine ⟨fun h => by rw [if_pos h], fun h1 h2 => ?_, fun h1 h2 => ?_⟩
    · rw [if_neg (not_le.mpr h1), if_pos h2]
    · rw [if_neg (not_le.mpr h1), if_neg (not_le.mpr h2)]
  · intro hmc δ₁ δ₂ hle
    unfold GapDetection.gapLevel
    split_ifs with h1 h2 h3 h4 h5 <;> simp [GapDetection.sevRank] <;> linarith

/-- Auxiliary: rounding zero gives zero. -/
lemma roundTo_zero {α : Type} [LinearOrderedField α] [FloorRing α] (k : ℕ) :
    roundTo k (0 : α) = 0 := by
  simp [roundTo]

/-- Witness for C3 at a concrete no-basis pair. -/
theorem claim_C3_time_basis_witness :
    MovementAnalysis._pick_pair_dt
        ⟨some 1, some 2, .empty, .invalid, some 1⟩
        ⟨some 3, some 4, .empty, .empty, some 2⟩ = (none, none, "") ∧
    (GapDetection.gapOfPair ⟨1800, 21600, 86400⟩
        ⟨some 1, some 2, .empty, .invalid, some 1⟩
        ⟨some 3, some 4, .empty, .empty, some 2⟩ = .ok none ∧
      MovementAnalysis.segOfPair ⟨3, 180, 180⟩
        ⟨some 1, some 2, .empty, .invalid, some 1⟩
        ⟨some 3, some 4, .empty, .empty, some 2⟩ =
        .ok { from_index := some 1, to_index := some 2,
              from_dt := .invalid, to_dt := .empty,
              distance_m := some (roundTo 2 (MovementAnalysis.haversine_m 1 2 3 4)),
              delta_s := none, speed_kmh := none,
              movement := "unknown", dt_basis := "" }) := by
  refine ⟨rfl, ?_⟩
  have h := (claim_C3_time_basis ⟨3, 180, 180⟩ ⟨1800, 21600, 86400⟩
    ⟨some 1, some 2, .empty, .invalid, some 1⟩
    ⟨some 3, some 4, .empty, .empty, some 2⟩).2 rfl
  exact h

/-- Witness for C5 at a concrete pair: identical coordinates 200 s apart with
default thresholds classify as `stop` with speed 0. -/
theorem claim_C5_movement_classification_witness :
    MovementAnalysis._pick_pair_dt
        ⟨some 0, some 0, .empty, .valid ⟨0, none⟩, some 1⟩
        ⟨some 0, some 0, .empty, .valid ⟨200, none⟩, some 2⟩ =
      (some ⟨0, none⟩, some ⟨200, none⟩, "dt_naive_iso") ∧
    pyDelta ⟨0, none⟩ ⟨200, none⟩ = .ok 200 ∧ (0 : ℚ) < 200 ∧
    ∃ s, MovementAnalysis.segOfPair ⟨3, 180, 180⟩
        ⟨some 0, some 0, .empty, .valid ⟨0, none⟩, some 1⟩
        ⟨some 0, some 0, .empty, .valid ⟨200, none⟩, some 2⟩ = .ok s ∧
      s.movement = "stop" ∧ s.speed_kmh = some 0 := by
  have h := (claim_C5_movement_classification ⟨3, 180, 180⟩
    ⟨some 0, some 0, .empty, .valid ⟨0, none⟩, some 1⟩
    ⟨some 0, some 0, .empty, .valid ⟨200, none⟩, some 2⟩
    0 0 0 0 ⟨0, none⟩ ⟨200, none⟩ "dt_naive_iso" 200
    rfl rfl rfl rfl rfl (by norm_num [pyDelta]) (by norm_num)).1
  rw [haversine_self] at h
  refine ⟨rfl, by norm_num [pyDelta], by norm_num, _, h, ?_, ?_⟩
  · show (if (180 : ℝ) ≤ 0 / ((200 : ℚ) : ℝ) * 3.6 then "jump"
      else if (0 : ℝ) / ((200 : ℚ) : ℝ) * 3.6 ≤ 3 ∧ (180 : ℚ) ≤ 200 then "stop"
      else "move") = "stop"
    rw [if_neg (by norm_num), if_pos (by constructor <;> norm_num)]
  · show some (roundTo 3 ((0 : ℝ) / ((200 : ℚ) : ℝ) * 3.6)) = some 0
    norm_num [roundTo_zero]

/-- Witness for C6 at a concrete pair: 90000 s elapsed on a shared UTC basis
with default thresholds emits a `critical` gap. -/
theorem claim_C6_gap_emission_witness :
    GapDetection._pick_pair_dt
        ⟨none, none, .valid ⟨0, some 0⟩, .empty, some 1⟩
        ⟨none, none, .valid ⟨90000, some 0⟩, .empty, some 2⟩ =
      (some ⟨0, some 0⟩, some ⟨90000, some 0⟩, "dt_utc") ∧
    pyDelta ⟨0, some 0⟩ ⟨90000, some 0⟩ = .ok 90000 ∧ (1800 : ℚ) < 90000 ∧
    ∃ g, GapDetection.gapOfPair ⟨1800, 21600, 86400⟩
        ⟨none, none, .valid ⟨0, some 0⟩, .empty, some 1⟩
        ⟨none, none, .valid ⟨90000, some 0⟩, .empty, some 2⟩ = .ok (some g) ∧
      g.gap_level = "critical" ∧ g.gap_seconds = 90000 := by
  have h := claim_C6_gap_emission ⟨1800, 21600, 86400⟩
    ⟨none, none, .valid ⟨0, some 0⟩, .empty, some 1⟩
    ⟨none, none, .valid ⟨90000, some 0⟩, .empty, some 2⟩
  have h3 := (h.2.2.1 ⟨0, some 0⟩ ⟨90000, some 0⟩ "dt_utc" 90000 rfl (by norm_num [pyDelta])).2 (by norm_num)
  have hc := (h.2.2.2.1 90000).1 (by norm_num)
  refine ⟨rfl, by norm_num [pyDelta], by norm_num, _, h3, ?_, ?_⟩
  · exact hc
  · show pyInt 90000 = 90000
    norm_num [pyInt]

section PySort

variable {α : Type} {E : Type}

/-- One insertion step of a stable comparison sort with a fallible `<`
comparator, as CPython's `list.sort` performs it: the new element `a`
(originally earlier in the list) is placed before the first `b` with
`¬ (b < a)`.  An element is compared against the already sorted later
elements in order, so a mixed aware/naive pair raises as soon as it is
compared. -/
def pyInsert (lt : α → α → Except E Bool) (a : α) : List α → Except E (List α)
  | [] => .ok [a]
  | b :: l => do
    let c ← lt b a
    if c then do
      let t ← pyInsert lt a l
      pure (b :: t)
    else
      pure (a :: b :: l)

/-- Stable sort with a fallible comparator.  CPython's `list.sort` (Timsort)
is stable and deterministic; on inputs whose keys are all pairwise comparable
it computes the unique stable order, which this insertion sort also computes.
Both raise on an input containing an incomparable adjacent-kind pair (Timsort
compares consecutive elements during run detection; the insertion here
compares the new element with the head of the sorted suffix). -/
def pySort (lt : α → α → Except E Bool) : List α → Except E (List α)
  | [] => .ok []
  | a :: l => do
    let t ← pySort lt l
    pyInsert lt a t

/-- When every comparison used is defined and agrees with the pure boolean
comparator `ltb` (hypothesis `hcomp` on elements satisfying the invariant
`P`), `pyInsert` computes Mathlib's `orderedInsert` for the relation
`fun x y => ltb y x = false`. -/
lemma pyInsert_ok {lt : α → α → Except E Bool} {ltb : α → α → Bool} {P : α → Prop}
    (hcomp : ∀ x y, P x → P y → lt x y = .ok (ltb x y)) :
    ∀ (l : List α) (a : α), P a → (∀ x ∈ l, P x) →
      pyInsert lt a l = .ok (List.orderedInsert (fun x y => ltb y x = false) a l)
  | [], a, _, _ => rfl
  | b :: l, a, ha, hl => by
    have hb : P b := hl b (List.mem_cons_self b l)
    rw [pyInsert, hcomp b a hb ha]
    simp only [bind, Except.bind, List.orderedInsert]
    by_cases hba : ltb b a = true
    · rw [if_pos hba, pyInsert_ok hcomp l a ha (fun x hx => hl x (List.mem_cons_of_mem b hx))]
      rw [if_neg (by simp [hba])]
      rfl
    · have hba2 : ltb b a = false := by
        revert hba
        cases ltb b a <;> simp
      rw [if_neg hba, if_pos hba2]
      rfl

/-- Under the same hypotheses, `pySort` computes Mathlib's `insertionSort`. -/
lemma pySort_ok {lt : α → α → Except E Bool} {ltb : α → α → Bool} {P : α → Prop}
    (hcomp : ∀ x y, P x → P y → lt x y = .ok (ltb x y)) :
    ∀ l : List α, (∀ x ∈ l, P x) →
      pySort lt l = .ok (List.insertionSort (fun x y => ltb y x = false) l)
  | [], _ => rfl
  | a :: l, hl => by
    rw [pySort, pySort_ok hcomp l (fun x hx => hl x (List.mem_cons_of_mem a hx))]
    simp only [bind, Except.bind]
    rw [pyInsert_ok hcomp _ a (hl a (List.mem_cons_self a l))
      (fun x hx => hl x (List.mem_cons_of_mem a ((List.mem_insertionSort _).mp hx)))]
    rfl

/-- `orderedInsert` lands entirely left of a suffix every element of which is
`≽` the inserted element. -/
lemma orderedInsert_append_left (r : α → α → Prop) [DecidableRel r] (a : α) :
    ∀ (A B : List α), (∀ b ∈ B, r a b) →
      List.orderedInsert r a (A ++ B) = List.orderedInsert r a A ++ B
  | [], B, hB => by
    cases B with
    | nil => rfl
    | cons b B =>
      simp only [List.nil_append, List.orderedInsert, List.orderedInsert_nil]
      rw [if_pos (hB b (List.mem_cons_self b B))]
      rfl
  | c :: A, B, hB => by
    simp only [List.cons_append, List.orderedInsert, List.append_eq]
    by_cases h : r a c
    · rw [if_pos h, if_pos h]
      rfl
    · rw [if_neg h, if_neg h, orderedInsert_append_left r a A B hB]
      rfl

/-- `orderedInsert` skips a prefix no element of which is `≽` the inserted
element. -/
lemma orderedInsert_append_right (r : α → α → Prop) [DecidableRel r] (a : α) :
    ∀ (A B : List α), (∀ c ∈ A, ¬ r a c) →
      List.orderedInsert r a (A ++ B) = A ++ List.orderedInsert r a B
  | [], B, _ => rfl
  | c :: A, B, hA => by
    simp only [List.cons_append, List.orderedInsert, List.append_eq]
    rw [if_neg (hA c (List.mem_cons_self c A)),
      orderedInsert_append_right r a A B (fun x hx => hA x (List.mem_cons_of_mem c hx))]

/-- An insertion sort by a relation that strictly separates a boolean rank
splits into the sorts of the two rank classes. -/
lemma insertionSort_rank_partition (r : α → α → Prop) [DecidableRel r] (p : α → Bool)
    (hsplit : ∀ x y, p x = true → p y = false → r x y ∧ ¬ r y x) :
    ∀ l : List α,
      List.insertionSort r l =
        List.insertionSort r (l.filter p) ++ List.insertionSort r (l.filter (fun x => !p x))
  | [] => rfl
  | a :: l => by
    rcases hpa : p a with _ | _
    · have hfp : (a :: l).filter p = l.filter p := by
        simp [List.filter, hpa]
      have hfn : (a :: l).filter (fun x => !p x) = a :: l.filter (fun x => !p x) := by
        simp [List.filter, hpa]
      rw [List.insertionSort, insertionSort_rank_partition r p hsplit l, hfp, hfn,
        List.insertionSort,
        orderedInsert_append_right r a _ _ (fun c hc => by
          have hc2 := List.mem_filter.mp ((List.mem_insertionSort r).mp hc)
          exact (hsplit c a hc2.2 hpa).2)]
    · have hfp : (a :: l).filter p = a :: l.filter p := by
        simp [List.filter, hpa]
      have hfn : (a :: l).filter (fun x => !p x) = l.filter (fun x => !p x) := by
        simp [List.filter, hpa]
      rw [List.insertionSort, insertionSort_rank_partition r p hsplit l, hfp, hfn,
        List.insertionSort,
        orderedInsert_append_left r a _ _ (fun b hb => by
          have hb2 := List.mem_filter.mp ((List.mem_insertionSort r).mp hb)
          exact (hsplit a b hpa (by simpa using hb2.2)).1)]

end PySort

namespace TimelineBuilder

/-- Embedding of `timeline_builder._parse_iso` (same as in the sibling
modules). -/
def _parse_iso : IsoStr → Option PyDT
  | .empty => none
  | .invalid => none
  | .valid d => some d

/-- The scoring step of `build_timeline`'s first loop for one row: rank 0 with
the parsed `dt_utc`, else rank 1 with the parsed `dt_naive_iso`, else `none`
(the row goes to the tail). -/
def scoreOf (r : Row) : Option (ℕ × PyDT) :=
  match _parse_iso r.dt_utc with
  | some d => some (0, d)
  | none =>
    match _parse_iso r.dt_naive_iso with
    | some d => some (1, d)
    | none => none

/-- Python's `<` on the sort keys `(x[0], x[1])` of `scored.sort`: tuple
comparison tests `==` element-wise first (a mixed aware/naive datetime
equality is `False` and does not raise) and decides by the first difference
with `<` (which raises on a mixed pair). -/
def tripLt (x y : ℕ × PyDT × Row) : Except PyErr Bool :=
  if x.1 = y.1 then
    if pyEq x.2.1 y.2.1 then .ok false else pyLt x.2.1 y.2.1
  else
    .ok (decide (x.1 < y.1))

/-- The index-assignment loop: a fresh copy of each row annotated with the
running 1-based `timeline_index`. -/
def annotate : ℕ → List Row → List Row
  | _, [] => []
  | i, r :: l => { r with timeline_index := some i } :: annotate (i + 1) l

/-- The `scored` list of `build_timeline`'s first loop: each rankable row with
its rank and parsed datetime, in input order. -/
def scoredList (rows : List Row) : List (ℕ × PyDT × Row) :=
  rows.filterMap (fun r => (scoreOf r).map (fun p => (p.1, p.2, r)))

/-- The `tail` list of `build_timeline`'s first loop: rows with no parseable
time, in input order. -/
def tailList (rows : List Row) : List Row :=
  rows.filter (fun r => (scoreOf r).isNone)

/-- Embedding of `timeline_builder.build_timeline`: score rows into
`scored`/`tail`, sort `scored` by the `(rank, datetime)` key with Python's
stable sort, then annotate `scored ++ tail` with indices `1..N`. -/
def build_timeline (rows : List Row) : Except PyErr (List Row) := do
  let sorted ← pySort tripLt (scoredList rows)
  pure (annotate 1 (sorted.map (fun t => t.2.2) ++ tailList rows))

/-- Whether `dt_utc` parses (rank-0 class of the claim). -/
def hasUtc (r : Row) : Bool :=
  (_parse_iso r.dt_utc).isSome

/-- Whether `dt_naive_iso` parses. -/
def hasNaive (r : Row) : Bool :=
  (_parse_iso r.dt_naive_iso).isSome

/-- The UTC instant by which rank-0 rows are ordered (junk value for rows
whose `dt_utc` does not parse; only used under a `hasUtc` filter). -/
def utcInst (r : Row) : ℚ :=
  ((_parse_iso r.dt_utc).getD ⟨0, none⟩).inst

/-- The naive instant by which rank-1 rows are ordered. -/
def naiveInst (r : Row) : ℚ :=
  ((_parse_iso r.dt_naive_iso).getD ⟨0, none⟩).inst

/-- Ordering of rank-0 rows, as the claim words it: ascending by the parsed
`dt_utc` instant. -/
def leUtc (a b : Row) : Prop :=
  utcInst a ≤ utcInst b

/-- Ordering of rank-1 rows: ascending by the parsed `dt_naive_iso` instant. -/
def leNaive (a b : Row) : Prop :=
  naiveInst a ≤ naiveInst b

instance : DecidableRel leUtc := fun a b => inferInstanceAs (Decidable (utcInst a ≤ utcInst b))

instance : DecidableRel leNaive := fun a b => inferInstanceAs (Decidable (naiveInst a ≤ naiveInst b))

/-- The ordering stated by the claim, as a definition following the spec's
words: all rows with parseable `dt_utc` first, stably sorted by that instant;
then rows with parseable `dt_naive_iso` but no `dt_utc`, stably sorted by that
instant; then the remaining rows in original order; the whole annotated with
`timeline_index` values `1..N`. -/
def specBuild (rows : List Row) : List Row :=
  annotate 1
    ((List.insertionSort leUtc (rows.filter hasUtc) ++
      List.insertionSort leNaive (rows.filter (fun r => !hasUtc r && hasNaive r))) ++
      rows.filter (fun r => !hasUtc r && !hasNaive r))

end TimelineBuilder

namespace TimelineBuilder

/-- The sort key `(rank, instant)` of a scored entry, in the lexicographic
order ℕ ×ₗ ℚ (within one awareness kind Python compares datetimes by this
instant). -/
def keyOf (t : ℕ × PyDT × Row) : ℕ ×ₗ ℚ :=
  toLex (t.1, t.2.1.inst)

/-- Pure boolean counterpart of the tuple `<` used by the sort, valid on
uniform entries. -/
def ltbKey (x y : ℕ × PyDT × Row) : Bool :=
  decide (keyOf x < keyOf y)

/-- Uniformity of a scored entry: rank 0 carries an aware datetime, rank 1 a
naive one (what the normalizer guarantees for `dt_utc` / `dt_naive_iso`). -/
def Uni (t : ℕ × PyDT × Row) : Prop :=
  (t.1 = 0 ∧ t.2.1.off.isSome) ∨ (t.1 = 1 ∧ t.2.1.off = none)

/-- On uniform entries the fallible tuple comparison never raises and agrees
with `ltbKey`. -/
lemma tripLt_comp : ∀ x y, Uni x → Uni y → tripLt x y = .ok (ltbKey x y) := by
  rintro ⟨kx, dx, rx⟩ ⟨ky, dy, ry⟩ hx hy
  rcases hx with ⟨hk, hoff⟩ | ⟨hk, hoff⟩ <;> rcases hy with ⟨hk2, hoff2⟩ | ⟨hk2, hoff2⟩ <;>
    simp only at hk hk2 hoff hoff2 <;> subst hk <;> subst hk2
  · obtain ⟨ox, hox⟩ := Option.isSome_iff_exists.mp hoff
    obtain ⟨oy, hoy⟩ := Option.isSome_iff_exists.mp hoff2
    have hox2 : dx.off = some ox := hox
    have hoy2 : dy.off = some oy := hoy
    have hl : ltbKey (0, dx, rx) (0, dy, ry) = decide (dx.naive - ox < dy.naive - oy) := by
      simp only [ltbKey, keyOf]
      apply decide_eq_decide.mpr
      rw [Prod.Lex.lt_iff]
      simp [PyDT.inst, hox2, hoy2]
    rw [hl]
    simp only [tripLt, pyEq, pyLt, hox2, hoy2]
    by_cases he : dx.naive - ox = dy.naive - oy
    · simp [he]
    · simp [he]
  · have hl : ltbKey (0, dx, rx) (1, dy, ry) = true := by
      simp only [ltbKey, keyOf, decide_eq_true_eq]
      rw [Prod.Lex.lt_iff]
      norm_num
    simp [tripLt, hl]
  · have hl : ltbKey (1, dx, rx) (0, dy, ry) = false := by
      simp only [ltbKey, keyOf]
      rw [decide_eq_false_iff_not, Prod.Lex.lt_iff]
      norm_num
    simp [tripLt, hl]
  · have hl : ltbKey (1, dx, rx) (1, dy, ry) = decide (dx.naive < dy.naive) := by
      simp only [ltbKey, keyOf]
      apply decide_eq_decide.mpr
      rw [Prod.Lex.lt_iff]
      simp [PyDT.inst, hoff, hoff2]
    rw [hl]
    simp only [tripLt, pyEq, pyLt, hoff, hoff2]
    by_cases he : dx.naive = dy.naive
    · simp [he]
    · simp [he]

end TimelineBuilder

namespace TimelineBuilder

/-- The row-level hypothesis of the amended C4: every `dt_utc` string that
parses is offset-aware and every `dt_naive_iso` string that parses is
offset-naive (which is what the normalizer produces). -/
def RowsOk (rows : List Row) : Prop :=
  ∀ r ∈ rows, (∀ d, _parse_iso r.dt_utc = some d → d.off.isSome) ∧
    (∀ d, _parse_iso r.dt_naive_iso = some d → d.off = none)

/-- Scored entries of rows satisfying `RowsOk` are uniform. -/
lemma scoredList_uni {rows : List Row} (h : RowsOk rows) :
    ∀ t ∈ scoredList rows, Uni t := by
  intro t ht
  obtain ⟨r, hr, hf⟩ := List.mem_filterMap.mp ht
  rcases hso : scoreOf r with _ | ⟨k, d⟩
  · rw [hso] at hf
    cases hf
  · rw [hso] at hf
    simp only [Option.map_some'] at hf
    cases hf
    unfold scoreOf at hso
    rcases hpu : _parse_iso r.dt_utc with _ | du
    · rw [hpu] at hso
      rcases hpn : _parse_iso r.dt_naive_iso with _ | dn
      · rw [hpn] at hso
        cases hso
      · rw [hpn] at hso
        cases hso
        exact Or.inr ⟨rfl, (h r hr).2 d hpn⟩
    · rw [hpu] at hso
      cases hso
      exact Or.inl ⟨rfl, (h r hr).1 d hpu⟩

/-- The sorting relation extracted from the comparator by `pySort_ok`. -/
def keyRel (x y : ℕ × PyDT × Row) : Prop :=
  ltbKey y x = false

instance : DecidableRel keyRel := fun x y => inferInstanceAs (Decidable (ltbKey y x = false))

/-- `keyRel` strictly separates rank 0 from the other ranks. -/
lemma keyRel_split : ∀ x y : ℕ × PyDT × Row, decide (x.1 = 0) = true →
    decide (y.1 = 0) = false → keyRel x y ∧ ¬ keyRel y x := by
  intro x y hx hy
  have hx0 : x.1 = 0 := of_decide_eq_true hx
  have hy0 : y.1 ≠ 0 := of_decide_eq_false hy
  have hylt : 0 < y.1 := Nat.pos_of_ne_zero hy0
  constructor
  · show ltbKey y x = false
    simp only [ltbKey, keyOf]
    rw [decide_eq_false_iff_not, Prod.Lex.lt_iff]
    simp only [hx0]
    rintro (h0 | ⟨h1, -⟩)
    · exact absurd h0 (Nat.not_lt_zero _)
    · exact hy0 h1
  · show ¬ ltbKey x y = false
    simp only [ltbKey, keyOf]
    rw [decide_eq_false_iff_not, Prod.Lex.lt_iff, not_not]
    refine Or.inl ?_
    show x.1 < y.1
    rw [hx0]
    exact hylt

end TimelineBuilder

namespace TimelineBuilder

/-- Embedding of a rank-0 row into its scored entry. -/
def embedUtc (r : Row) : ℕ × PyDT × Row :=
  (0, (_parse_iso r.dt_utc).getD ⟨0, none⟩, r)

/-- Embedding of a rank-1 row into its scored entry. -/
def embedNaive (r : Row) : ℕ × PyDT × Row :=
  (1, (_parse_iso r.dt_naive_iso).getD ⟨0, none⟩, r)

/-- The rank-0 part of the scored list is the `hasUtc` rows in order. -/
lemma scoredList_filter_rank0 : ∀ rows : List Row,
    (scoredList rows).filter (fun t => decide (t.1 = 0)) =
      (rows.filter hasUtc).map embedUtc
  | [] => rfl
  | r :: rows => by
    have ih := scoredList_filter_rank0 rows
    simp only [scoredList] at ih ⊢
    rw [List.filterMap_cons]
    rcases hpu : _parse_iso r.dt_utc with _ | du
    · rcases hpn : _parse_iso r.dt_naive_iso with _ | dn
      · have hso : scoreOf r = none := by
          simp [scoreOf, hpu, hpn]
        simp [hso, hasUtc, hpu, ih]
      · have hso : scoreOf r = some (1, dn) := by
          simp [scoreOf, hpu, hpn]
        simp [hso, hasUtc, hpu, ih]
    · have hso : scoreOf r = some (0, du) := by
        simp [scoreOf, hpu]
      simp [hso, hasUtc, hpu, embedUtc, ih]

/-- The rank-1 part of the scored list is the naive-only rows in order. -/
lemma scoredList_filter_rank1 : ∀ rows : List Row,
    (scoredList rows).filter (fun t => !decide (t.1 = 0)) =
      (rows.filter (fun r => !hasUtc r && hasNaive r)).map embedNaive
  | [] => rfl
  | r :: rows => by
    have ih := scoredList_filter_rank1 rows
    simp only [scoredList] at ih ⊢
    rw [List.filterMap_cons]
    rcases hpu : _parse_iso r.dt_utc with _ | du
    · rcases hpn : _parse_iso r.dt_naive_iso with _ | dn
      · have hso : scoreOf r = none := by
          simp [scoreOf, hpu, hpn]
        simp [hso, hasUtc, hasNaive, hpu, hpn, ih]
      · have hso : scoreOf r = some (1, dn) := by
          simp [scoreOf, hpu, hpn]
        simp [hso, hasUtc, hasNaive, hpu, hpn, embedNaive, ih]
    · have hso : scoreOf r = some (0, du) := by
        simp [scoreOf, hpu]
      simp [hso, hasUtc, hpu, ih]

/-- The tail is exactly the rows with no parseable time, in order. -/
lemma tailList_eq : ∀ rows : List Row,
    tailList rows = rows.filter (fun r => !hasUtc r && !hasNaive r)
  | [] => rfl
  | r :: rows => by
    have ih := tailList_eq rows
    simp only [tailList] at ih ⊢
    rcases hpu : _parse_iso r.dt_utc with _ | du
    · rcases hpn : _parse_iso r.dt_naive_iso with _ | dn
      · have hso : scoreOf r = none := by
          simp [scoreOf, hpu, hpn]
        simp [List.filter, hso, hasUtc, hasNaive, hpu, hpn, ih]
      · have hso : scoreOf r = some (1, dn) := by
          simp [scoreOf, hpu, hpn]
        simp [List.filter, hso, hasUtc, hasNaive, hpu, hpn, ih]
    · have hso : scoreOf r = some (0, du) := by
        simp [scoreOf, hpu]
      simp [List.filter, hso, hasUtc, hpu, ih]

/-- Length of the annotation pass. -/
lemma annotate_length : ∀ (i : ℕ) (l : List Row), (annotate i l).length = l.length
  | _, [] => rfl
  | i, _ :: l => by
    simp [annotate, annotate_length (i + 1) l]

/-- The annotation pass stamps the consecutive indices `i, i+1, ...`. -/
lemma annotate_indices : ∀ (i : ℕ) (l : List Row),
    (annotate i l).map (fun r => r.timeline_index) = (List.range' i l.length).map some
  | _, [] => rfl
  | i, r :: l => by
    simp [annotate, annotate_indices (i + 1) l, List.range']

instance : IsTotal Row leUtc :=
  ⟨fun a b => le_total (utcInst a) (utcInst b)⟩

instance : IsTrans Row leUtc :=
  ⟨fun _ _ _ hab hbc => le_trans hab hbc⟩

instance : IsTotal Row leNaive :=
  ⟨fun a b => le_total (naiveInst a) (naiveInst b)⟩

instance : IsTrans Row leNaive :=
  ⟨fun _ _ _ hab hbc => le_trans hab hbc⟩

end TimelineBuilder

namespace TimelineBuilder

/-- On rank-0 entries the sort relation is exactly the claim's UTC-instant
order on the underlying rows. -/
lemma keyRel_embedUtc (ra rb : Row) : keyRel (embedUtc ra) (embedUtc rb) ↔ leUtc ra rb := by
  unfold keyRel ltbKey keyOf embedUtc leUtc utcInst
  rw [decide_eq_false_iff_not, not_lt, Prod.Lex.le_iff]
  simp

/-- On rank-1 entries the sort relation is exactly the claim's naive-instant
order on the underlying rows. -/
lemma keyRel_embedNaive (ra rb : Row) :
    keyRel (embedNaive ra) (embedNaive rb) ↔ leNaive ra rb := by
  unfold keyRel ltbKey keyOf embedNaive leNaive naiveInst
  rw [decide_eq_false_iff_not, not_lt, Prod.Lex.le_iff]
  simp

/-- Sorting the embedded rank-0 entries and projecting back is sorting the
rank-0 rows by UTC instant. -/
lemma sortMap_utc (rows : List Row) :
    (List.insertionSort keyRel ((rows.filter hasUtc).map embedUtc)).map (fun t => t.2.2) =
      List.insertionSort leUtc (rows.filter hasUtc) := by
  have hl : ∀ a ∈ (rows.filter hasUtc).map embedUtc, ∀ b ∈ (rows.filter hasUtc).map embedUtc,
      keyRel a b ↔ leUtc ((fun t : ℕ × PyDT × Row => t.2.2) a)
        ((fun t : ℕ × PyDT × Row => t.2.2) b) := by
    intro a ha b hb
    obtain ⟨ra, hra, rfl⟩ := List.mem_map.mp ha
    obtain ⟨rb, hrb, rfl⟩ := List.mem_map.mp hb
    exact keyRel_embedUtc ra rb
  rw [List.map_insertionSort keyRel leUtc (fun t : ℕ × PyDT × Row => t.2.2)
      ((rows.filter hasUtc).map embedUtc) hl, List.map_map]
  rw [show ((fun t : ℕ × PyDT × Row => t.2.2) ∘ embedUtc) = id from rfl, List.map_id]

/-- Sorting the embedded rank-1 entries and projecting back is sorting the
naive-only rows by naive instant. -/
lemma sortMap_naive (rows : List Row) :
    (List.insertionSort keyRel
        ((rows.filter (fun r => !hasUtc r && hasNaive r)).map embedNaive)).map
        (fun t => t.2.2) =
      List.insertionSort leNaive (rows.filter (fun r => !hasUtc r && hasNaive r)) := by
  have hl : ∀ a ∈ (rows.filter (fun r => !hasUtc r && hasNaive r)).map embedNaive,
      ∀ b ∈ (rows.filter (fun r => !hasUtc r && hasNaive r)).map embedNaive,
      keyRel a b ↔ leNaive ((fun t : ℕ × PyDT × Row => t.2.2) a)
        ((fun t : ℕ × PyDT × Row => t.2.2) b) := by
    intro a ha b hb
    obtain ⟨ra, hra, rfl⟩ := List.mem_map.mp ha
    obtain ⟨rb, hrb, rfl⟩ := List.mem_map.mp hb
    exact keyRel_embedNaive ra rb
  rw [List.map_insertionSort keyRel leNaive (fun t : ℕ × PyDT × Row => t.2.2)
      ((rows.filter (fun r => !hasUtc r && hasNaive r)).map embedNaive) hl, List.map_map]
  rw [show ((fun t : ℕ × PyDT × Row => t.2.2) ∘ embedNaive) = id from rfl, List.map_id]

/-- The three row classes partition the input, in counts. -/
lemma filter_three_length : ∀ rows : List Row,
    (rows.filter hasUtc).length +
      ((rows.filter (fun r => !hasUtc r && hasNaive r)).length +
        (rows.filter (fun r => !hasUtc r && !hasNaive r)).length) = rows.length
  | [] => rfl
  | r :: rows => by
    have ih := filter_three_length rows
    rcases hu : hasUtc r with _ | _ <;> rcases hn : hasNaive r with _ | _ <;>
      simp [List.filter, hu, hn] <;> omega

end TimelineBuilder

/-- C4 (amended): for rows whose parseable `dt_utc` values are offset-aware
and whose parseable `dt_naive_iso` values are offset-naive (as the normalizer
produces them), `build_timeline` succeeds and returns exactly the claim's
ordering — rank-0 rows stably sorted by UTC instant, then naive-only rows
stably sorted by naive instant, then the tail in original order — annotated
with the dense `timeline_index` sequence `1..N`; the run is deterministic.
Without that proviso the claim fails: see the counterexample, where the sort
raises on comparing an aware and a naive datetime. -/
theorem claim_C4_timeline_order (rows : List Row) (h : TimelineBuilder.RowsOk rows) :
    TimelineBuilder.build_timeline rows = .ok (TimelineBuilder.specBuild rows) ∧
    (TimelineBuilder.specBuild rows).length = rows.length ∧
    (TimelineBuilder.specBuild rows).map (fun r => r.timeline_index) =
      (List.range' 1 rows.length).map some ∧
    List.Sorted TimelineBuilder.leUtc
      (List.insertionSort TimelineBuilder.leUtc (rows.filter TimelineBuilder.hasUtc)) ∧
    List.Sorted TimelineBuilder.leNaive
      (List.insertionSort TimelineBuilder.leNaive
        (rows.filter (fun r => !TimelineBuilder.hasUtc r && TimelineBuilder.hasNaive r))) ∧
    (∀ x y : Row, List.Sublist [x, y] (rows.filter TimelineBuilder.hasUtc) →
      TimelineBuilder.leUtc x y →
      List.Sublist [x, y]
        (List.insertionSort TimelineBuilder.leUtc (rows.filter TimelineBuilder.hasUtc))) ∧
    (∀ x y : Row,
      List.Sublist [x, y]
        (rows.filter (fun r => !TimelineBuilder.hasUtc r && TimelineBuilder.hasNaive r)) →
      TimelineBuilder.leNaive x y →
      List.Sublist [x, y]
        (List.insertionSort TimelineBuilder.leNaive
          (rows.filter (fun r => !TimelineBuilder.hasUtc r && TimelineBuilder.hasNaive r)))) ∧
    TimelineBuilder.build_timeline rows = TimelineBuilder.build_timeline rows := by
  open TimelineBuilder in
  have hsort : pySort tripLt (scoredList rows) =
      .ok (List.insertionSort keyRel (scoredList rows)) :=
    pySort_ok tripLt_comp (scoredList rows) (scoredList_uni h)
  open TimelineBuilder in
  have hpart := insertionSort_rank_partition keyRel (fun t => decide (t.1 = 0))
    keyRel_split (scoredList rows)
  open TimelineBuilder in
  have hlen : ((List.insertionSort leUtc (rows.filter hasUtc) ++
      List.insertionSort leNaive (rows.filter (fun r => !hasUtc r && hasNaive r))) ++
      rows.filter (fun r => !hasUtc r && !hasNaive r)).length = rows.length := by
    simp only [List.length_append, List.length_insertionSort]
    have h3 := filter_three_length rows
    omega
  open TimelineBuilder in
  have h1 : build_timeline rows = .ok (specBuild rows) := by
    simp only [build_timeline, hsort, bind, Except.bind]
    rw [hpart, scoredList_filter_rank0, scoredList_filter_rank1, List.map_append,
      sortMap_utc, sortMap_naive, tailList_eq]
    rfl
  open TimelineBuilder in
  refine ⟨h1, ?_, ?_, List.sorted_insertionSort leUtc _, List.sorted_insertionSort leNaive _,
    fun x y hs hxy => List.pair_sublist_insertionSort hxy hs,
    fun x y hs hxy => List.pair_sublist_insertionSort hxy hs, rfl⟩
  · simp only [specBuild, annotate_length, hlen]
  · rw [specBuild, annotate_indices, hlen]

/-- Counterexample to C4 as stated: on a two-row input whose `dt_utc` strings
parse to a naive and an aware datetime respectively, the sort inside
`build_timeline` compares them and raises `TypeError`, so `build_timeline`
returns no row list at all (in particular not `N` indexed rows). -/
theorem claim_C4_counterexample :
    TimelineBuilder.build_timeline
      [⟨none, none, .valid ⟨0, none⟩, .empty, none⟩,
       ⟨none, none, .valid ⟨0, some 0⟩, .empty, none⟩] = .error .mixedCompare ∧
    ∀ out : List Row, TimelineBuilder.build_timeline
      [⟨none, none, .valid ⟨0, none⟩, .empty, none⟩,
       ⟨none, none, .valid ⟨0, some 0⟩, .empty, none⟩] ≠ .ok out := by
  have h : TimelineBuilder.build_timeline
      [⟨none, none, .valid ⟨0, none⟩, .empty, none⟩,
       ⟨none, none, .valid ⟨0, some 0⟩, .empty, none⟩] = .error .mixedCompare := rfl
  refine ⟨h, fun out hc => ?_⟩
  rw [h] at hc
  cases hc

/-- Witness for the amended C4 at a concrete three-row input (one aware row,
one naive-only row, one unparseable row). -/
theorem claim_C4_timeline_order_witness :
    TimelineBuilder.RowsOk
      [⟨none, none, .valid ⟨10, some 0⟩, .valid ⟨10, none⟩, none⟩,
       ⟨none, none, .empty, .valid ⟨5, none⟩, none⟩,
       ⟨none, none, .invalid, .empty, none⟩] ∧
    TimelineBuilder.build_timeline
      [⟨none, none, .valid ⟨10, some 0⟩, .valid ⟨10, none⟩, none⟩,
       ⟨none, none, .empty, .valid ⟨5, none⟩, none⟩,
       ⟨none, none, .invalid, .empty, none⟩] =
      .ok (TimelineBuilder.specBuild
        [⟨none, none, .valid ⟨10, some 0⟩, .valid ⟨10, none⟩, none⟩,
         ⟨none, none, .empty, .valid ⟨5, none⟩, none⟩,
         ⟨none, none, .invalid, .empty, none⟩]) := by
  have hok : TimelineBuilder.RowsOk
      [⟨none, none, .valid ⟨10, some 0⟩, .valid ⟨10, none⟩, none⟩,
       ⟨none, none, .empty, .valid ⟨5, none⟩, none⟩,
       ⟨none, none, .invalid, .empty, none⟩] := by
    intro r hr
    simp only [List.mem_cons, List.not_mem_nil, or_false] at hr
    rcases hr with rfl | rfl | rfl
    · exact ⟨fun d hd => by cases hd; rfl, fun d hd => by cases hd; rfl⟩
    · exact ⟨fun d hd => (nomatch hd), fun d hd => by cases hd; rfl⟩
    · exact ⟨fun d hd => (nomatch hd), fun d hd => (nomatch hd)⟩
  exact ⟨hok, (claim_C4_timeline_order _ hok).1⟩

/-! Raw timestamp strings.  The normalizer and the clusterer parse raw strings
with `datetime.strptime` against fixed format lists; this level is modelled on
actual character lists, including Python's offset-syntax preprocessing (where
the C2 slicing bug lives). -/

/-- Raw strings as character lists. -/
abbrev Str := List Char

/-- ASCII whitespace as stripped by `str.strip` (Unicode whitespace is not
modelled; no claim involves it). -/
def isWs (c : Char) : Bool :=
  c = ' ' || c = '\t' || c = '\n' || c = '\r' || c = '\x0b' || c = '\x0c'

/-- Python `str.strip()`. -/
def pyStrip (s : Str) : Str :=
  ((s.dropWhile isWs).reverse.dropWhile isWs).reverse

/-- A `+` or `-` sign character. -/
def isSign (c : Char) : Bool :=
  c = '+' || c = '-'

/-- Character in an inclusive ASCII range. -/
def inRange (lo hi c : Char) : Bool :=
  lo ≤ c && c ≤ hi

/-- Numeric value of a digit character. -/
def digitVal (c : Char) : ℕ :=
  c.toNat - '0'.toNat

/-- Digit character for a value `0..9`. -/
def digitChar (n : ℕ) : Char :=
  Char.ofNat ('0'.toNat + n)

/-- Search for `TZ_OFFSET_RE = ([+-]\d{2}):?(\d{2})$`: any match ends at the
end of the string and has length 6 (colon form) or 5 (compact form); the
leftmost-match rule of `re.search` prefers the colon form, and the two forms
cannot both match (the colon form requires `:` where the compact form has a
digit).  Returns (group 1, group 2, match length). -/
def tzCompact (s : Str) : Option (Str × Str × ℕ) :=
  if 5 ≤ s.length then
    match s.drop (s.length - 5) with
    | [c0, c1, c2, c3, c4] =>
      if isSign c0 && c1.isDigit && c2.isDigit && c3.isDigit && c4.isDigit then
        some ([c0, c1, c2], [c3, c4], 5)
      else none
    | _ => none
  else none

/-- See `tzCompact`; the full search. -/
def tzOffsetSearch (s : Str) : Option (Str × Str × ℕ) :=
  if 6 ≤ s.length then
    match s.drop (s.length - 6) with
    | [c0, c1, c2, c3, c4, c5] =>
      if isSign c0 && c1.isDigit && c2.isDigit && c3 = ':' && c4.isDigit && c5.isDigit then
        some ([c0, c1, c2], [c4, c5], 6)
      else tzCompact s
    | _ => tzCompact s
  else tzCompact s

/-- A parsed `datetime.strptime` result at the EXIF level: explicit calendar
fields plus the UTC offset in seconds for `%z` formats. -/
structure ExifDT where
  y : ℕ
  mo : ℕ
  dy : ℕ
  hh : ℕ
  mi : ℕ
  ss : ℕ
  tz : Option ℤ
deriving DecidableEq, Repr

/-- Gregorian leap year. -/
def isLeap (y : ℕ) : Bool :=
  (y % 4 = 0 && y % 100 ≠ 0) || y % 400 = 0

/-- Days in a month (`datetime` constructor validation). -/
def daysInMonth (y mo : ℕ) : ℕ :=
  if mo = 2 then (if isLeap y then 29 else 28)
  else if mo = 4 || mo = 6 || mo = 9 || mo = 11 then 30
  else 31

/-- Days since 1970-01-01 of a civil date (standard era-based conversion; all
intermediate quantities are non-negative for years `1..9999`). -/
def daysFromCivil (y mo dy : ℕ) : ℤ :=
  let y2 := if mo ≤ 2 then y - 1 else y
  let era := y2 / 400
  let yoe := y2 % 400
  let mp := (mo + 9) % 12
  let doy := (153 * mp + 2) / 5 + (dy - 1)
  let doe := yoe * 365 + yoe / 4 - yoe / 100 + doy
  (era : ℤ) * 146097 + (doe : ℤ) - 719468

/-- Civil date of a day number (inverse of `daysFromCivil`; floor division so
that dates before 1970 are handled). -/
def civilFromDays (z : ℤ) : ℤ × ℕ × ℕ :=
  let z2 := z + 719468
  let era := Int.fdiv z2 146097
  let doe := z2 - era * 146097
  let yoe := (doe - doe / 1460 + doe / 36524 - doe / 146096) / 365
  let y := yoe + era * 400
  let doy := doe - (365 * yoe + yoe / 4 - yoe / 100)
  let mp := (5 * doy + 2) / 153
  let dy := doy - (153 * mp + 2) / 5 + 1
  let mo := if mp < 10 then mp + 3 else mp - 9
  ((if mo ≤ 2 then y + 1 else y), mo.toNat, dy.toNat)

/-- The naive calendar reading of an `ExifDT`, linearized to seconds since the
epoch (strictly monotone in the field-lexicographic order Python uses to
compare naive datetimes, and difference-faithful). -/
def toNaiveSec (d : ExifDT) : ℤ :=
  daysFromCivil d.y d.mo d.dy * 86400 + d.hh * 3600 + d.mi * 60 + d.ss

/-- The UTC instant of an `ExifDT` (naive reading for a naive value). -/
def exifInst (d : ExifDT) : ℤ :=
  toNaiveSec d - d.tz.getD 0

/-- `d.astimezone(timezone.utc)` for the naive fields of `d` read in offset
`o`: shift to UTC and re-split into calendar fields; `none` models the
`OverflowError` raised when the result leaves the year range `1..9999`. -/
def utcOf (d : ExifDT) (o : ℤ) : Option ExifDT :=
  let total := toNaiveSec d - o
  let days := Int.fdiv total 86400
  let rem := (Int.fmod total 86400).toNat
  let c := civilFromDays days
  if 1 ≤ c.1 ∧ c.1 ≤ 9999 then
    some ⟨c.1.toNat, c.2.1, c.2.2, rem / 3600, rem % 3600 / 60, rem % 60, some 0⟩
  else
    none

/-! The `strptime` model.  CPython's `_strptime` compiles each format to a
regex; the numeric directives are ordered alternations of fixed digit
patterns, matched with backtracking.  `tryAlts` mirrors that: alternatives in
priority order, retrying the next alternative when the rest of the format
fails.  Because every separator in the four EXIF formats is a non-digit (and
`%z` starts with `+`, `-` or `Z`), a successful parse here assigns exactly the
groups the regex would.  Fractional `%z` offset seconds (`+HH:MM:SS.ffffff`)
are not modelled. -/

/-- Try the digit-pattern alternatives of one directive in priority order;
`k` parses the remainder of the format (regex backtracking). -/
def tryAlts {R : Type} (alts : List (Str → Option (ℕ × Str))) (s : Str)
    (k : ℕ → Str → Option R) : Option R :=
  match alts with
  | [] => none
  | alt :: rest =>
    match alt s with
    | some (v, s2) => (k v s2) <|> tryAlts rest s k
    | none => tryAlts rest s k

/-- Two-character digit pattern. -/
def m2 (p1 p2 : Char → Bool) : Str → Option (ℕ × Str)
  | c1 :: c2 :: rest =>
    if p1 c1 && p2 c2 then some (digitVal c1 * 10 + digitVal c2, rest) else none
  | _ => none

/-- One-character digit pattern. -/
def m1 (p : Char → Bool) : Str → Option (ℕ × Str)
  | c :: rest => if p c then some (digitVal c, rest) else none
  | _ => none

/-- Four-digit pattern of `%Y` (`\d\d\d\d`). -/
def m4d : Str → Option (ℕ × Str)
  | c1 :: c2 :: c3 :: c4 :: rest =>
    if c1.isDigit && c2.isDigit && c3.isDigit && c4.isDigit then
      some (((digitVal c1 * 10 + digitVal c2) * 10 + digitVal c3) * 10 + digitVal c4, rest)
    else none
  | _ => none

/-- `%m`: `1[0-2]|0[1-9]|[1-9]`. -/
def monthAlts : List (Str → Option (ℕ × Str)) :=
  [m2 (· = '1') (inRange '0' '2'), m2 (· = '0') (inRange '1' '9'), m1 (inRange '1' '9')]

/-- `%d`: `3[01]|[12]\d|0[1-9]|[1-9]`. -/
def dayAlts : List (Str → Option (ℕ × Str)) :=
  [m2 (· = '3') (inRange '0' '1'), m2 (inRange '1' '2') Char.isDigit,
   m2 (· = '0') (inRange '1' '9'), m1 (inRange '1' '9')]

/-- `%H`: `2[0-3]|[0-1]\d|\d`. -/
def hourAlts : List (Str → Option (ℕ × Str)) :=
  [m2 (· = '2') (inRange '0' '3'), m2 (inRange '0' '1') Char.isDigit, m1 Char.isDigit]

/-- `%M`: `[0-5]\d|\d`. -/
def minAlts : List (Str → Option (ℕ × Str)) :=
  [m2 (inRange '0' '5') Char.isDigit, m1 Char.isDigit]

/-- `%S`: `6[0-1]|[0-5]\d|\d`. -/
def secAlts : List (Str → Option (ℕ × Str)) :=
  [m2 (· = '6') (inRange '0' '1'), m2 (inRange '0' '5') Char.isDigit, m1 Char.isDigit]

/-- A literal separator character of the format. -/
def matchLit (c : Char) : Str → Option Str
  | d :: rest => if d = c then some rest else none
  | _ => none

/-- A whitespace run (`_strptime` replaces whitespace in the format by
`\s+`). -/
def ws1plus : Str → Option Str
  | c :: rest => if isWs c then some (rest.dropWhile isWs) else none
  | _ => none

/-- `%z`: `[+-]\d\d:?[0-5]\d(:?[0-5]\d)?|Z`, returning the offset seconds. -/
def mz : Str → Option (ℤ × Str)
  | [] => none
  | c :: rest =>
    if c = 'Z' then some (0, rest)
    else if isSign c then
      match rest with
      | h1 :: h2 :: rest2 =>
        if h1.isDigit && h2.isDigit then
          let hh := digitVal h1 * 10 + digitVal h2
          let rest3 := match rest2 with
            | ':' :: r => r
            | r => r
          match rest3 with
          | mm1 :: mm2 :: rest4 =>
            if inRange '0' '5' mm1 && mm2.isDigit then
              let mm := digitVal mm1 * 10 + digitVal mm2
              let base : ℤ := (if c = '-' then -1 else 1) * (hh * 3600 + mm * 60)
              let rest5 := match rest4 with
                | ':' :: r => r
                | r => r
              match rest5 with
              | ss1 :: ss2 :: rest6 =>
                if inRange '0' '5' ss1 && ss2.isDigit then
                  some (base + (if c = '-' then -1 else 1) * (digitVal ss1 * 10 + digitVal ss2),
                    rest6)
                else some (base, rest4)
              | _ => some (base, rest4)
            else none
          | _ => none
        else none
      | _ => none
    else none

/-- The `datetime` constructor validation performed by `strptime` after the
regex match: calendar ranges, second at most 59, and a `timezone()` offset
strictly within a day. -/
def mkExif (y mo dy hh mi ss : ℕ) (tz : Option ℤ) : Option ExifDT :=
  if 1 ≤ y ∧ y ≤ 9999 ∧ 1 ≤ mo ∧ mo ≤ 12 ∧ 1 ≤ dy ∧ dy ≤ daysInMonth y mo ∧
      hh ≤ 23 ∧ mi ≤ 59 ∧ ss ≤ 59 ∧ (∀ o ∈ tz, o.natAbs < 86400) then
    some ⟨y, mo, dy, hh, mi, ss, tz⟩
  else
    none

/-- One `strptime` attempt against `"%Y<sep>%m<sep>%d %H:%M:%S"`, optionally
with a trailing `%z`; the whole string must be consumed. -/
def parseExifFormat (sep : Char) (withTz : Bool) (s : Str) : Option ExifDT :=
  tryAlts [m4d] s fun y s1 =>
  (matchLit sep s1).bind fun s2 =>
  tryAlts monthAlts s2 fun mo s3 =>
  (matchLit sep s3).bind fun s4 =>
  tryAlts dayAlts s4 fun dy s5 =>
  (ws1plus s5).bind fun s6 =>
  tryAlts hourAlts s6 fun hh s7 =>
  (matchLit ':' s7).bind fun s8 =>
  tryAlts minAlts s8 fun mi s9 =>
  (matchLit ':' s9).bind fun s10 =>
  tryAlts secAlts s10 fun ss s11 =>
  if withTz then
    (mz s11).bind fun z =>
      if z.2 = [] then mkExif y mo dy hh mi ss (some z.1) else none
  else
    if s11 = [] then mkExif y mo dy hh mi ss none else none

/-- Render `n` zero-padded to two digits. -/
def pad2 (n : ℕ) : Str :=
  [digitChar (n / 10 % 10), digitChar (n % 10)]

/-- Render `n` zero-padded to four digits. -/
def pad4 (n : ℕ) : Str :=
  [digitChar (n / 1000 % 10), digitChar (n / 100 % 10), digitChar (n / 10 % 10),
   digitChar (n % 10)]

/-- `d.replace(tzinfo=None).isoformat(timespec="seconds")`:
`YYYY-MM-DDTHH:MM:SS`. -/
def renderNaive (d : ExifDT) : Str :=
  pad4 d.y ++ '-' :: pad2 d.mo ++ '-' :: pad2 d.dy ++
    'T' :: pad2 d.hh ++ ':' :: pad2 d.mi ++ ':' :: pad2 d.ss

/-- The `isoformat` rendering of a fixed UTC offset: `±HH:MM`, with `:SS`
appended when the offset has a seconds part. -/
def renderOffset (o : ℤ) : Str :=
  let a := o.natAbs
  let base := (if o < 0 then '-' else '+') :: pad2 (a / 3600) ++ ':' :: pad2 (a % 3600 / 60)
  if a % 60 = 0 then base else base ++ ':' :: pad2 (a % 60)

/-- Helper of `replaceAll`: `skip` pending characters of a replaced match are
dropped before scanning resumes (structural recursion on the string). -/
def replaceAllGo (pat rep : Str) : ℕ → Str → Str
  | _, [] => []
  | skip + 1, _ :: rest => replaceAllGo pat rep skip rest
  | 0, c :: rest =>
    if pat.isPrefixOf (c :: rest) ∧ pat ≠ [] then
      rep ++ replaceAllGo pat rep (pat.length - 1) rest
    else
      c :: replaceAllGo pat rep 0 rest

/-- Python `str.replace(pat, rep)` (all occurrences, left to right). -/
def replaceAll (pat rep s : Str) : Str :=
  replaceAllGo pat rep 0 s

/-- The `isoformat` of an aware UTC datetime with the source's
`replace("+00:00", "Z")` applied. -/
def renderUtcZ (d : ExifDT) : Str :=
  replaceAll ("+00:00").data ("Z").data (renderNaive d ++ renderOffset 0)

/-- Python `int(s)` on a string: optional surrounding whitespace, optional
sign, one or more digits (digit-separating underscores are not modelled). -/
def pyIntParse (s : Str) : Option ℤ :=
  let t := pyStrip s
  let core : Str → Option ℕ := fun ds =>
    if ds ≠ [] ∧ ds.all Char.isDigit then
      some (ds.foldl (fun acc c => acc * 10 + digitVal c) 0)
    else none
  match t with
  | '+' :: ds => (core ds).map (fun n => (n : ℤ))
  | '-' :: ds => (core ds).map (fun n => -(n : ℤ))
  | ds => (core ds).map (fun n => (n : ℤ))

namespace TimezoneNormalizer

/-- The offset-syntax preprocessing of `_parse_dt`: when `TZ_OFFSET_RE`
matches and the (whole) string contains a colon, slice off the last six
characters and append the two groups.  The `":" in raw` guard is satisfied by
the time-of-day colons of every parseable timestamp, so a compact `+HHMM`
suffix (a five-character match) also gets sliced by six — eating the last
digit of the seconds field. -/
def mangleOffset (s : Str) : Str :=
  match tzOffsetSearch s with
  | some (g1, g2, _) => if s.contains ':' then s.take (s.length - 6) ++ g1 ++ g2 else s
  | none => s

/-- Embedding of `timezone_normalizer._parse_dt`: empty-check, strip, offset
normalization, then the four `EXIF_DT_PATTERNS` in order. -/
def _parse_dt (raw : Str) : Option ExifDT :=
  if raw = [] then none
  else
    let r2 := mangleOffset (pyStrip raw)
    (parseExifFormat ':' true r2) <|> (parseExifFormat '-' true r2) <|>
      (parseExifFormat ':' false r2) <|> (parseExifFormat '-' false r2)

/-- The offset-bearing metadata fields of a record read by
`_offset_from_exif` (`none` models an absent key; other record fields are
never read by the normalizer). -/
structure Item where
  OffsetTimeOriginal : Option Str
  OffsetTime : Option Str
  TimeZone : Option Str
  TimeZoneOffset : Option Str

/-- First truthy value among the offset fields, stringified and stripped. -/
def firstTruthy : List (Option Str) → Option Str
  | [] => none
  | some v :: rest => if v ≠ [] then some (pyStrip v) else firstTruthy rest
  | none :: rest => firstTruthy rest

/-- Embedding of `timezone_normalizer._offset_from_exif`. -/
def _offset_from_exif (item : Item) : Option Str :=
  firstTruthy [item.OffsetTimeOriginal, item.OffsetTime, item.TimeZone, item.TimeZoneOffset]

/-- The `NormalizedTime` dictionary. -/
structure NormalizedTime where
  dt_naive_iso : Str
  dt_local : Str
  dt_utc : Str
  tz_info : Str
  timezone_assumed : Bool
deriving DecidableEq, Repr

/-- The `try` block of `normalize_time`'s EXIF-offset branch: normalize the
offset spelling, read sign / hours / minutes (any exception — an unparsable
slice, a `timezone()` offset of a day or more, or an `OverflowError` from the
UTC conversion — is swallowed by the `except` and yields `none`, falling
through to the no-offset branches). -/
def tryExifOffset (d : ExifDT) (dt_naive_iso : Str) (off : Str) : Option NormalizedTime :=
  let off_norm :=
    match tzOffsetSearch off with
    | some (g1, g2, _) => g1 ++ g2
    | none => off.filter (fun c => c ≠ ':')
  let sign : ℤ := if off_norm.take 1 = ['+'] then 1 else -1
  (pyIntParse ((off_norm.drop 1).take 2)).bind fun hh =>
  (if 5 ≤ off_norm.length then pyIntParse ((off_norm.drop 3).take 2) else some 0).bind fun mm =>
  let total := sign * (hh * 3600 + mm * 60)
  if total.natAbs < 86400 then
    (utcOf d total).map fun du =>
      ⟨dt_naive_iso, renderNaive d ++ renderOffset total, renderUtcZ du,
        off_norm, false⟩
  else
    none

/-- Embedding of `timezone_normalizer.normalize_time`.  The embedded-offset
branch calls `astimezone` outside any `try`, so an `OverflowError` there
escapes (`.error .dateOverflow`); every other branch returns a value. -/
def normalize_time (datetime_raw : Str) (item : Item) (default_tz : Str)
    (assume_if_missing : Bool) : Except PyErr NormalizedTime :=
  match _parse_dt datetime_raw with
  | none =>
    .ok ⟨[], [], [], ("unknown").data, false⟩
  | some d =>
    let dt_naive_iso := renderNaive d
    match d.tz with
    | some o =>
      match utcOf d o with
      | none => .error .dateOverflow
      | some du =>
        .ok ⟨dt_naive_iso, renderNaive d ++ renderOffset o, renderUtcZ du,
          ("embedded").data, false⟩
    | none =>
      let fallthrough : NormalizedTime :=
        if ¬ assume_if_missing then
          ⟨dt_naive_iso, [], [], ("unknown").data, false⟩
        else
          ⟨dt_naive_iso, dt_naive_iso, [], ("assumed:").data ++ default_tz, true⟩
      match _offset_from_exif item with
      | some off =>
        match tryExifOffset d dt_naive_iso off with
        | some res => .ok res
        | none => .ok fallthrough
      | none => .ok fallthrough

end TimezoneNormalizer

/-- C2 (refuted): the two spellings `+02:00` / `+0200` of the same offset on
the same timestamp both parse, but do not yield the same NormalizedTime.  The
compact spelling is a five-character regex match, yet the preprocessing
slices `raw[:-6]` (the `":" in raw` guard is satisfied by the time-of-day
colons), so the last digit of the seconds field is eaten: seconds `05` parse
as `0`. -/
theorem claim_C2_offset_spelling_bug :
    TimezoneNormalizer.normalize_time ("2024:01:01 10:00:05+02:00").data
        ⟨none, none, none, none⟩ ("Europe/Berlin").data true =
      .ok ⟨("2024-01-01T10:00:05").data, ("2024-01-01T10:00:05+02:00").data,
           ("2024-01-01T08:00:05Z").data, ("embedded").data, false⟩ ∧
    TimezoneNormalizer.normalize_time ("2024:01:01 10:00:05+0200").data
        ⟨none, none, none, none⟩ ("Europe/Berlin").data true =
      .ok ⟨("2024-01-01T10:00:00").data, ("2024-01-01T10:00:00+02:00").data,
           ("2024-01-01T08:00:00Z").data, ("embedded").data, false⟩ ∧
    ("2024-01-01T10:00:05").data ≠ ("2024-01-01T10:00:00").data := by
  refine ⟨by decide, by decide, by decide⟩

/-- C7: a parseable raw timestamp with no embedded offset and no usable
metadata offset: court mode returns the naive-only result (`dt_local` and
`dt_utc` empty, `tz_info = "unknown"`, not assumed), assume mode copies the
naive rendering into `dt_local`, tags `tz_info = "assumed:<default_tz>"`,
sets the assumed flag, and deliberately leaves `dt_utc` empty; in both modes
`dt_naive_iso` is non-empty. -/
theorem claim_C7_no_offset_modes (raw : Str) (item : TimezoneNormalizer.Item)
    (default_tz : Str) (d : ExifDT)
    (hp : TimezoneNormalizer._parse_dt raw = some d) (hn : d.tz = none)
    (hoff : ∀ off, TimezoneNormalizer._offset_from_exif item = some off →
      TimezoneNormalizer.tryExifOffset d (renderNaive d) off = none) :
    TimezoneNormalizer.normalize_time raw item default_tz false =
      .ok ⟨renderNaive d, [], [], ("unknown").data, false⟩ ∧
    TimezoneNormalizer.normalize_time raw item default_tz true =
      .ok ⟨renderNaive d, renderNaive d, [], ("assumed:").data ++ default_tz, true⟩ ∧
    renderNaive d ≠ [] := by
  refine ⟨?_, ?_, by simp [renderNaive, pad4]⟩ <;>
  · unfold TimezoneNormalizer.normalize_time
    rw [hp]
    dsimp only
    rw [hn]
    dsimp only
    rcases hoe : TimezoneNormalizer._offset_from_exif item with _ | off
    · simp
    · simp [hoff off hoe]

/-- Witness for C7 at a concrete parseable, offset-less input with an empty
item. -/
theorem claim_C7_no_offset_modes_witness :
    TimezoneNormalizer._parse_dt ("2024:01:01 10:00:00").data =
      some ⟨2024, 1, 1, 10, 0, 0, none⟩ ∧
    TimezoneNormalizer.normalize_time ("2024:01:01 10:00:00").data
        ⟨none, none, none, none⟩ ("Europe/Berlin").data false =
      .ok ⟨renderNaive ⟨2024, 1, 1, 10, 0, 0, none⟩, [], [], ("unknown").data, false⟩ ∧
    TimezoneNormalizer.normalize_time ("2024:01:01 10:00:00").data
        ⟨none, none, none, none⟩ ("Europe/Berlin").data true =
      .ok ⟨renderNaive ⟨2024, 1, 1, 10, 0, 0, none⟩, renderNaive ⟨2024, 1, 1, 10, 0, 0, none⟩,
           [], ("assumed:").data ++ ("Europe/Berlin").data, true⟩ := by
  have hp : TimezoneNormalizer._parse_dt ("2024:01:01 10:00:00").data =
      some ⟨2024, 1, 1, 10, 0, 0, none⟩ := by decide
  have h := claim_C7_no_offset_modes ("2024:01:01 10:00:00").data
    ⟨none, none, none, none⟩ ("Europe/Berlin").data ⟨2024, 1, 1, 10, 0, 0, none⟩
    hp rfl (fun off hoe => by cases hoe)
  exact ⟨hp, h.1, h.2.1⟩

/-- Any result of the EXIF-offset `try` block carries the naive rendering it
was given and is never marked assumed. -/
lemma tryExifOffset_shape {d : ExifDT} {nai off : Str}
    {res : TimezoneNormalizer.NormalizedTime}
    (h : TimezoneNormalizer.tryExifOffset d nai off = some res) :
    res.timezone_assumed = false ∧ res.dt_naive_iso = nai := by
  unfold TimezoneNormalizer.tryExifOffset at h
  dsimp only at h
  rw [Option.bind_eq_some] at h
  obtain ⟨hhv, hh, h⟩ := h
  rw [Option.bind_eq_some] at h
  obtain ⟨mmv, hm, h⟩ := h
  split at h <;> split at h
  · rw [Option.map_eq_some'] at h
    obtain ⟨du, hdu, h⟩ := h
    cases h
    exact ⟨rfl, rfl⟩
  · cases h
  · rw [Option.map_eq_some'] at h
    obtain ⟨du, hdu, h⟩ := h
    cases h
    exact ⟨rfl, rfl⟩
  · cases h

/-- C10: whenever `normalize_time` returns a non-empty `dt_utc`, the result is
not timezone-assumed and carries a non-empty `dt_naive_iso`: a UTC-bound
instant only ever comes from an embedded offset or a parsed metadata offset,
never from the assumed default timezone. -/
theorem claim_C10_utc_implies_not_assumed (raw : Str) (item : TimezoneNormalizer.Item)
    (default_tz : Str) (flag : Bool) (n : TimezoneNormalizer.NormalizedTime)
    (h : TimezoneNormalizer.normalize_time raw item default_tz flag = .ok n)
    (hu : n.dt_utc ≠ []) :
    n.timezone_assumed = false ∧ n.dt_naive_iso ≠ [] := by
  unfold TimezoneNormalizer.normalize_time at h
  rcases hp : TimezoneNormalizer._parse_dt raw with _ | d
  · rw [hp] at h
    cases h
    exact absurd rfl hu
  rw [hp] at h
  dsimp only at h
  rcases htz : d.tz with _ | o
  · rw [htz] at h
    dsimp only at h
    rcases hoe : TimezoneNormalizer._offset_from_exif item with _ | off
    · rw [hoe] at h
      dsimp only at h
      rcases hflag : flag with _ | _ <;> rw [hflag] at h <;> simp at h <;> cases h <;>
        exact absurd rfl hu
    · rw [hoe] at h
      dsimp only at h
      rcases htry : TimezoneNormalizer.tryExifOffset d (renderNaive d) off with _ | res
      · rw [htry] at h
        dsimp only at h
        rcases hflag : flag with _ | _ <;> rw [hflag] at h <;> simp at h <;> cases h <;>
          exact absurd rfl hu
      · rw [htry] at h
        dsimp only at h
        cases h
        have hs := tryExifOffset_shape htry
        refine ⟨hs.1, ?_⟩
        rw [hs.2]
        simp [renderNaive, pad4]
  · rw [htz] at h
    dsimp only at h
    rcases hu2 : utcOf d o with _ | du
    · rw [hu2] at h
      cases h
    · rw [hu2] at h
      dsimp only at h
      cases h
      exact ⟨rfl, by simp [renderNaive, pad4]⟩

/-- Witness for C10 at a concrete embedded-offset input. -/
theorem claim_C10_utc_implies_not_assumed_witness :
    ∃ n, TimezoneNormalizer.normalize_time ("2024:06:01 12:00:00+02:00").data
        ⟨none, none, none, none⟩ ("Europe/Berlin").data true = .ok n ∧
      n.dt_utc ≠ [] ∧ n.timezone_assumed = false ∧ n.dt_naive_iso ≠ [] := by
  have h : TimezoneNormalizer.normalize_time ("2024:06:01 12:00:00+02:00").data
      ⟨none, none, none, none⟩ ("Europe/Berlin").data true =
      .ok ⟨("2024-06-01T12:00:00").data, ("2024-06-01T12:00:00+02:00").data,
           ("2024-06-01T10:00:00Z").data, ("embedded").data, false⟩ := by decide
  have hu : (("2024-06-01T10:00:00Z").data : Str) ≠ [] := by decide
  have hc := claim_C10_utc_implies_not_assumed ("2024:06:01 12:00:00+02:00").data
    ⟨none, none, none, none⟩ ("Europe/Berlin").data true _ h hu
  exact ⟨_, h, hu, hc⟩

namespace GpsForensic

/-- Embedding of `gps_forensic.parse_dt`: no strip, no offset preprocessing,
and the naive formats are tried before the `%z` ones (a naive format never
matches an offset-bearing string — trailing unconverted data — and vice
versa, so the order only affects which format succeeds). -/
def parse_dt (dt : Str) : Option ExifDT :=
  if dt = [] then none
  else
    (parseExifFormat ':' false dt) <|> (parseExifFormat '-' false dt) <|>
      (parseExifFormat ':' true dt) <|> (parseExifFormat '-' true dt)

/-- Python `a < b` on `strptime` results: naive/naive by calendar fields
(equivalently by their linearization `toNaiveSec`), aware/aware by UTC
instant, mixed raises `TypeError`. -/
def pyLtExif (a b : ExifDT) : Except PyErr Bool :=
  match a.tz, b.tz with
  | none, none => .ok (decide (toNaiveSec a < toNaiveSec b))
  | some _, some _ => .ok (decide (exifInst a < exifInst b))
  | _, _ => .error .mixedCompare

/-- Python `(b - a).total_seconds()` on `strptime` results (integral
seconds). -/
def pyDeltaExif (a b : ExifDT) : Except PyErr ℤ :=
  match a.tz, b.tz with
  | none, none => .ok (toNaiveSec b - toNaiveSec a)
  | some _, some _ => .ok (exifInst b - exifInst a)
  | _, _ => .error .mixedSub

/-- A raw record as consumed by `detect_duplicates`: the two timestamp fields
it reads and the coordinates (guaranteed present by `process_batch`).  Other
keys are copied through unchanged and are omitted. -/
structure DupRow where
  DateTimeOriginal : Str
  CreateDate : Str
  lat : ℝ
  lon : ℝ

/-- A record of the duplicates report: the source row with its `cluster_id`
and `cluster_size` stamps. -/
structure OutRow where
  row : DupRow
  cluster_id : ℕ
  cluster_size : ℕ

/-- The `DateTimeOriginal` / `CreateDate` / `""` fallback of
`detect_duplicates`. -/
def candidateOf (r : DupRow) : Str :=
  if r.DateTimeOriginal ≠ [] then r.DateTimeOriginal
  else if r.CreateDate ≠ [] then r.CreateDate
  else []

/-- The `enriched` list: rows whose candidate timestamp parses, with the
parsed datetime, in input order. -/
def enrich (rows : List DupRow) : List (ExifDT × DupRow) :=
  rows.filterMap (fun r => (parse_dt (candidateOf r)).map (fun d => (d, r)))

/-- The greedy chaining loop of `detect_duplicates`: a record joins the open
cluster iff its time difference and haversine distance to the immediately
preceding chained record are within the thresholds; on a break the open
cluster is emitted only when it has at least two members; the final open
cluster is flushed under the same condition. -/
noncomputable def chainLoop (dist_m : ℝ) (time_s : ℤ) :
    List (ExifDT × DupRow) → List (List (ExifDT × DupRow)) → List (ExifDT × DupRow) →
      Except PyErr (List (List (ExifDT × DupRow)))
  | [], clusters, current => .ok (if 1 < current.length then clusters ++ [current] else clusters)
  | x :: rest, clusters, current =>
    match current with
    | [] => chainLoop dist_m time_s rest clusters [x]
    | c :: cs => do
      let prev := (c :: cs).getLast (by simp)
      let delta ← pyDeltaExif prev.1 x.1
      if (delta.natAbs : ℤ) ≤ time_s ∧
          haversine_m prev.2.lat prev.2.lon x.2.lat x.2.lon ≤ dist_m then
        chainLoop dist_m time_s rest clusters ((c :: cs) ++ [x])
      else
        chainLoop dist_m time_s rest
          (if 1 < (c :: cs).length then clusters ++ [c :: cs] else clusters) [x]

/-- The stamping loop: `enumerate(clusters, 1)`, each member copied with the
1-based `cluster_id` and the cluster's size. -/
def stampClusters (clusters : List (List (ExifDT × DupRow))) : List OutRow :=
  (clusters.enum.map (fun p => p.2.map (fun x => OutRow.mk x.2 (p.1 + 1) p.2.length))).flatten

/-- Embedding of `gps_forensic.detect_duplicates`. -/
noncomputable def detect_duplicates (rows : List DupRow) (dist_m : ℝ) (time_s : ℤ) :
    Except PyErr (List OutRow) := do
  let sorted ← pySort (fun x y => pyLtExif x.1 y.1) (enrich rows)
  let clusters ← chainLoop dist_m time_s sorted [] []
  pure (stampClusters clusters)

end GpsForensic

/-- C1 (refuted on `detect_duplicates`): on a record set whose parsed
timestamps mix an offset-less and an offset-bearing value, the sort inside
`detect_duplicates` compares them and raises `TypeError` — the operation does
not complete.  (The sibling timeline modules guard this case pairwise;
`detect_duplicates` does not.) -/
theorem claim_C1_detect_duplicates_raises :
    GpsForensic.detect_duplicates
      [⟨("2024:01:01 10:00:00").data, [], 0, 0⟩,
       ⟨("2024:01:01 10:00:00+02:00").data, [], 0, 0⟩] 5 10 = .error .mixedCompare ∧
    ∀ out : List GpsForensic.OutRow,
      GpsForensic.detect_duplicates
        [⟨("2024:01:01 10:00:00").data, [], 0, 0⟩,
         ⟨("2024:01:01 10:00:00+02:00").data, [], 0, 0⟩] 5 10 ≠ .ok out := by
  have h : GpsForensic.detect_duplicates
      [⟨("2024:01:01 10:00:00").data, [], 0, 0⟩,
       ⟨("2024:01:01 10:00:00+02:00").data, [], 0, 0⟩] 5 10 = .error .mixedCompare := by
    rfl
  refine ⟨h, fun out hc => ?_⟩
  rw [h] at hc
  cases hc

section PySortSuccess

variable {α : Type} {E : Type}

/-- A successful `pyInsert` yields one more element. -/
lemma pyInsert_ok_length {lt : α → α → Except E Bool} :
    ∀ {l : List α} {a : α} {t : List α}, pyInsert lt a l = .ok t → t.length = l.length + 1 := by
  intro l
  induction l with
  | nil =>
    intro a t h
    cases h
    rfl
  | cons b l ih =>
    intro a t h
    rw [pyInsert] at h
    rcases hc : lt b a with e | c
    · rw [hc] at h
      cases h
    · rw [hc] at h
      simp only [bind, Except.bind] at h
      rcases c with _ | _
      · rw [if_neg (by simp)] at h
        cases h
        simp
      · rw [if_pos rfl] at h
        rcases hr : pyInsert lt a l with e | t2
        · rw [hr] at h
          cases h
        · rw [hr] at h
          cases h
          simp [ih hr]

/-- Every element of a successful `pyInsert` is the inserted element or one of
the originals. -/
lemma pyInsert_ok_mem {lt : α → α → Except E Bool} :
    ∀ {l : List α} {a : α} {t : List α}, pyInsert lt a l = .ok t →
      ∀ x ∈ t, x = a ∨ x ∈ l := by
  intro l
  induction l with
  | nil =>
    intro a t h x hx
    cases h
    simp at hx
    exact Or.inl hx
  | cons b l ih =>
    intro a t h x hx
    rw [pyInsert] at h
    rcases hc : lt b a with e | c
    · rw [hc] at h
      cases h
    · rw [hc] at h
      simp only [bind, Except.bind] at h
      rcases c with _ | _
      · rw [if_neg (by simp)] at h
        cases h
        rcases List.mem_cons.mp hx with rfl | hx2
        · exact Or.inl rfl
        · exact Or.inr hx2
      · rw [if_pos rfl] at h
        rcases hr : pyInsert lt a l with e | t2
        · rw [hr] at h
          cases h
        · rw [hr] at h
          cases h
          rcases List.mem_cons.mp hx with rfl | hx2
          · exact Or.inr (List.mem_cons_self _ _)
          · rcases ih hr x hx2 with h1 | h2
            · exact Or.inl h1
            · exact Or.inr (List.mem_cons_of_mem _ h2)

/-- A successful `pySort` preserves length. -/
lemma pySort_ok_length {lt : α → α → Except E Bool} :
    ∀ {l t : List α}, pySort lt l = .ok t → t.length = l.length := by
  intro l
  induction l with
  | nil =>
    intro t h
    cases h
    rfl
  | cons a l ih =>
    intro t h
    rw [pySort] at h
    rcases hr : pySort lt l with e | t2
    · rw [hr] at h
      cases h
    · rw [hr] at h
      simp only [bind, Except.bind] at h
      rw [pyInsert_ok_length h, ih hr]
      simp

/-- Elements of a successful `pySort` come from the input. -/
lemma pySort_ok_mem {lt : α → α → Except E Bool} :
    ∀ {l t : List α}, pySort lt l = .ok t → ∀ x ∈ t, x ∈ l := by
  intro l
  induction l with
  | nil =>
    intro t h
    cases h
    simp
  | cons a l ih =>
    intro t h x hx
    rw [pySort] at h
    rcases hr : pySort lt l with e | t2
    · rw [hr] at h
      cases h
    · rw [hr] at h
      simp only [bind, Except.bind] at h
      rcases pyInsert_ok_mem h x hx with rfl | h2
      · exact List.mem_cons_self _ _
      · exact List.mem_cons_of_mem _ (ih hr x h2)

end PySortSuccess

namespace GpsForensic

/-- Awareness kind of an enriched entry. -/
def kindOf (x : ExifDT × DupRow) : Bool :=
  x.1.tz.isSome

/-- Pure boolean time comparison, valid on entries of one kind. -/
def timeLtb (x y : ExifDT × DupRow) : Bool :=
  decide (exifInst x.1 < exifInst y.1)

/-- The sort relation extracted from the comparator (ascending by parsed
time, stable). -/
def timeRel (x y : ExifDT × DupRow) : Prop :=
  timeLtb y x = false

instance : DecidableRel timeRel := fun x y => inferInstanceAs (Decidable (timeLtb y x = false))

/-- Ascending order on parsed instants (naive instants for naive values). -/
def timeLe (x y : ExifDT × DupRow) : Prop :=
  exifInst x.1 ≤ exifInst y.1

/-- On entries of one awareness kind the fallible datetime comparison never
raises and agrees with `timeLtb`. -/
lemma pyLtExif_comp (k : Bool) : ∀ x y : ExifDT × DupRow, kindOf x = k → kindOf y = k →
    pyLtExif x.1 y.1 = .ok (timeLtb x y) := by
  intro x y hx hy
  rcases hxo : x.1.tz with _ | ox <;> rcases hyo : y.1.tz with _ | oy <;>
    simp only [kindOf, hxo, hyo, Option.isSome_none, Option.isSome_some] at hx hy
  · simp only [pyLtExif, hxo, hyo, timeLtb]
    congr 1
    exact decide_eq_decide.mpr (by simp [exifInst, hxo, hyo])
  · rw [← hy] at hx
    cases hx
  · rw [← hy] at hx
    cases hx
  · simp only [pyLtExif, hxo, hyo, timeLtb]

/-- A successful insertion forces the inserted element to share its kind with
the head it is first compared against. -/
lemma pyInsert_kind {a b : ExifDT × DupRow} {l t : List (ExifDT × DupRow)}
    (h : pyInsert (fun x y => pyLtExif x.1 y.1) a (b :: l) = .ok t) :
    kindOf b = kindOf a := by
  rw [pyInsert] at h
  rcases hc : pyLtExif b.1 a.1 with e | c
  · rw [hc] at h
    cases h
  · unfold pyLtExif at hc
    rcases hbo : b.1.tz with _ | ob <;> rcases hao : a.1.tz with _ | oa <;>
      rw [hbo, hao] at hc
    · simp [kindOf, hbo, hao]
    · cases hc
    · cases hc
    · simp [kindOf, hbo, hao]

/-- A successful sort forces all entries to one awareness kind. -/
lemma pySort_sameKind : ∀ {l es : List (ExifDT × DupRow)},
    pySort (fun x y => pyLtExif x.1 y.1) l = .ok es →
    ∀ x ∈ l, ∀ y ∈ l, kindOf x = kindOf y := by
  intro l
  induction l with
  | nil =>
    intro es _ x hx
    cases hx
  | cons a l ih =>
    intro es h x hx y hy
    rw [pySort] at h
    rcases hr : pySort (fun x y => pyLtExif x.1 y.1) l with e | t
    · rw [hr] at h
      cases h
    · rw [hr] at h
      simp only [bind, Except.bind] at h
      have hat : ∀ z ∈ l, kindOf z = kindOf a := by
        intro z hz
        rcases ht : t with _ | ⟨b, t2⟩
        · rw [ht] at hr
          have hlen := pySort_ok_length hr
          simp only [List.length_nil] at hlen
          rw [List.length_eq_zero.mp hlen.symm] at hz
          cases hz
        · rw [ht] at h hr
          have hba := pyInsert_kind h
          have hbl : b ∈ l := pySort_ok_mem hr b (List.mem_cons_self _ _)
          rw [← hba]
          exact ih hr z hz b hbl
      rcases List.mem_cons.mp hx with rfl | hx2 <;> rcases List.mem_cons.mp hy with rfl | hy2
      · rfl
      · exact (hat y hy2).symm
      · exact hat x hx2
      · exact ih hr x hx2 y hy2

end GpsForensic

section ChunkRuns

variable {α : Type} (p : α → α → Prop) [DecidableRel p]

/-- Head run of a chain split and the remaining runs: `a` starts the run;
each following element joins while related to its immediate predecessor. -/
def runsAux : α → List α → List α × List (List α)
  | a, [] => ([a], [])
  | a, b :: l =>
    let res := runsAux b l
    if p a b then (a :: res.1, res.2) else ([a], res.1 :: res.2)

/-- Split a list into maximal runs whose consecutive members satisfy `p`
(the claim's greedy chaining against the immediately preceding record). -/
def chunkRuns : List α → List (List α)
  | [] => []
  | a :: l => (runsAux p a l).1 :: (runsAux p a l).2

/-- Every run produced is a `p`-chain. -/
lemma runsAux_chain : ∀ (a : α) (l : List α),
    List.Chain' p (runsAux p a l).1 ∧ ∀ r ∈ (runsAux p a l).2, List.Chain' p r
  | a, [] => by
    constructor
    · simp [runsAux]
    · intro r hr
      simp [runsAux] at hr
  | a, b :: l => by
    have ih := runsAux_chain b l
    rw [runsAux]
    by_cases hp : p a b
    · rw [if_pos hp]
      refine ⟨?_, ih.2⟩
      rcases hres : (runsAux p b l).1 with _ | ⟨c, cs⟩
      · simp
      · have hc : c = b := by
          rcases l with _ | ⟨d, l2⟩
          · rw [runsAux] at hres
            cases hres
            rfl
          · rw [runsAux] at hres
            by_cases hbd : p b d
            · rw [if_pos hbd] at hres
              cases hres
              rfl
            · rw [if_neg hbd] at hres
              cases hres
              rfl
        have hchain := ih.1
        rw [hres, hc] at hchain
        rw [hc]
        exact List.Chain'.cons hp hchain
    · rw [if_neg hp]
      refine ⟨by simp, ?_⟩
      intro r hr
      rcases List.mem_cons.mp hr with rfl | hr2
      · exact ih.1
      · exact ih.2 r hr2

/-- Every run produced is non-empty. -/
lemma runsAux_ne_nil : ∀ (a : α) (l : List α),
    (runsAux p a l).1 ≠ [] ∧ ∀ r ∈ (runsAux p a l).2, r ≠ []
  | a, [] => by
    constructor
    · simp [runsAux]
    · intro r hr
      simp [runsAux] at hr
  | a, b :: l => by
    have ih := runsAux_ne_nil b l
    rw [runsAux]
    by_cases hp : p a b
    · rw [if_pos hp]
      exact ⟨by simp, ih.2⟩
    · rw [if_neg hp]
      refine ⟨by simp, ?_⟩
      intro r hr
      rcases List.mem_cons.mp hr with rfl | hr2
      · exact ih.1
      · exact ih.2 r hr2

/-- Runs of `chunkRuns` are non-empty `p`-chains. -/
lemma chunkRuns_chain : ∀ (l : List α), ∀ r ∈ chunkRuns p l, List.Chain' p r ∧ r ≠ []
  | [] => by
    intro r hr
    simp [chunkRuns] at hr
  | a :: l => by
    intro r hr
    rcases List.mem_cons.mp hr with rfl | hr2
    · exact ⟨(runsAux_chain p a l).1, (runsAux_ne_nil p a l).1⟩
    · exact ⟨(runsAux_chain p a l).2 r hr2, (runsAux_ne_nil p a l).2 r hr2⟩

end ChunkRuns

namespace GpsForensic

/-- The claim's join condition: the elapsed time to the immediately preceding
chained record is within `dup_time_s` and the haversine distance to that same
record within `dup_dist_m` (stated on the fallible subtraction, which is
defined on the same-kind entries a successful sort produces). -/
def joinCond (dm : ℝ) (tm : ℤ) (prev x : ExifDT × DupRow) : Prop :=
  ∃ δ, pyDeltaExif prev.1 x.1 = .ok δ ∧ (δ.natAbs : ℤ) ≤ tm ∧
    haversine_m prev.2.lat prev.2.lon x.2.lat x.2.lon ≤ dm

noncomputable instance (dm : ℝ) (tm : ℤ) : DecidableRel (joinCond dm tm) :=
  fun _ _ => Classical.propDecidable _

/-- Pure counterpart of `chainLoop` (defined on all inputs via the decidable
join condition; it agrees with `chainLoop` on same-kind inputs). -/
noncomputable def chainLoopP (dm : ℝ) (tm : ℤ) :
    List (ExifDT × DupRow) → List (List (ExifDT × DupRow)) → List (ExifDT × DupRow) →
      List (List (ExifDT × DupRow))
  | [], clusters, current => if 1 < current.length then clusters ++ [current] else clusters
  | x :: rest, clusters, current =>
    match current with
    | [] => chainLoopP dm tm rest clusters [x]
    | c :: cs =>
      if joinCond dm tm ((c :: cs).getLast (by simp)) x then
        chainLoopP dm tm rest clusters ((c :: cs) ++ [x])
      else
        chainLoopP dm tm rest (if 1 < (c :: cs).length then clusters ++ [c :: cs] else clusters)
          [x]

/-- On a same-kind pair the fallible subtraction is defined and yields the
difference of instants. -/
lemma pyDeltaExif_ok {p q : ExifDT × DupRow} (h : kindOf p = kindOf q) :
    pyDeltaExif p.1 q.1 = .ok (exifInst q.1 - exifInst p.1) := by
  rcases hpo : p.1.tz with _ | op <;> rcases hqo : q.1.tz with _ | oq <;>
    simp only [kindOf, hpo, hqo, Option.isSome_none, Option.isSome_some] at h
  · simp only [pyDeltaExif, hpo, hqo]
    congr 1
    simp [exifInst, hpo, hqo]
  · cases h
  · cases h
  · simp only [pyDeltaExif, hpo, hqo]

/-- On same-kind inputs `chainLoop` never raises and computes `chainLoopP`. -/
lemma chainLoop_eq_pure (dm : ℝ) (tm : ℤ) (k : Bool) :
    ∀ (rest : List (ExifDT × DupRow)) (clusters : List (List (ExifDT × DupRow)))
      (current : List (ExifDT × DupRow)),
      (∀ x ∈ rest, kindOf x = k) → (∀ x ∈ current, kindOf x = k) →
      chainLoop dm tm rest clusters current = .ok (chainLoopP dm tm rest clusters current)
  | [], clusters, current, _, _ => rfl
  | x :: rest, clusters, current, hr, hc => by
    have hxk : kindOf x = k := hr x (List.mem_cons_self _ _)
    have hr2 : ∀ z ∈ rest, kindOf z = k := fun z hz => hr z (List.mem_cons_of_mem _ hz)
    cases current with
    | nil =>
      rw [chainLoop, chainLoopP]
      exact chainLoop_eq_pure dm tm k rest clusters [x] hr2
        (fun z hz => by rw [List.mem_singleton.mp hz]; exact hxk)
    | cons c cs =>
      rw [chainLoop, chainLoopP]
      have hprev : kindOf ((c :: cs).getLast (by simp)) = k :=
        hc _ (List.getLast_mem _)
      have hδ := pyDeltaExif_ok (hprev.trans hxk.symm)
      rw [hδ]
      simp only [bind, Except.bind]
      by_cases hcond : ((exifInst x.1 - exifInst ((c :: cs).getLast (by simp)).1).natAbs : ℤ) ≤ tm ∧
          haversine_m ((c :: cs).getLast (by simp)).2.lat ((c :: cs).getLast (by simp)).2.lon
            x.2.lat x.2.lon ≤ dm
      · rw [if_pos hcond, if_pos ⟨_, hδ, hcond.1, hcond.2⟩]
        exact chainLoop_eq_pure dm tm k rest clusters ((c :: cs) ++ [x]) hr2
          (fun z hz => by
            rcases List.mem_append.mp hz with h1 | h2
            · exact hc z h1
            · rw [List.mem_singleton.mp h2]; exact hxk)
      · have hjneg : ¬ joinCond dm tm ((c :: cs).getLast (by simp)) x := by
          rintro ⟨δ, hδ2, h1, h2⟩
          rw [hδ] at hδ2
          cases hδ2
          exact hcond ⟨h1, h2⟩
        rw [if_neg hcond, if_neg hjneg]
        exact chainLoop_eq_pure dm tm k rest _ [x] hr2
          (fun z hz => by rw [List.mem_singleton.mp hz]; exact hxk)

end GpsForensic

namespace GpsForensic

/-- The run built from an open cluster `front ++ [a]` (only the last member
`a` is compared against) over the remaining stream. -/
noncomputable def buildRuns (dm : ℝ) (tm : ℤ) (front : List (ExifDT × DupRow))
    (a : ExifDT × DupRow) : List (ExifDT × DupRow) → List (List (ExifDT × DupRow))
  | [] => [front ++ [a]]
  | x :: rest =>
    if joinCond dm tm a x then buildRuns dm tm (front ++ [a]) x rest
    else (front ++ [a]) :: buildRuns dm tm [] x rest


/-- The chaining loop appends exactly the size-two-or-more runs of the
remaining stream to the accumulated clusters. -/
lemma chainLoopP_go (dm : ℝ) (tm : ℤ) :
    ∀ (rest : List (ExifDT × DupRow)) (clusters : List (List (ExifDT × DupRow)))
      (front : List (ExifDT × DupRow)) (a : ExifDT × DupRow),
      chainLoopP dm tm rest clusters (front ++ [a]) =
        clusters ++ (buildRuns dm tm front a rest).filter (fun r => decide (2 ≤ r.length))
  | [], clusters, front, a => by
    rw [chainLoopP, buildRuns]
    by_cases hl : 1 < (front ++ [a]).length
    · rw [if_pos hl]
      simp only [List.length_append, List.length_singleton] at hl
      have h3 : 1 ≤ front.length := by omega
      simp [List.filter, h3]
    · rw [if_neg hl]
      simp only [List.length_append, List.length_singleton] at hl
      have h3 : ¬ (1 ≤ front.length) := by omega
      simp [List.filter, h3]
  | x :: rest, clusters, front, a => by
    cases front with
    | nil =>
      simp only [List.nil_append]
      rw [chainLoopP, buildRuns]
      simp only [List.getLast_singleton, List.nil_append]
      by_cases hp : joinCond dm tm a x
      · rw [if_pos hp, if_pos hp]
        exact chainLoopP_go dm tm rest clusters [a] x
      · rw [if_neg hp, if_neg hp]
        have h1 : ¬ (1 < ([a] : List (ExifDT × DupRow)).length) := by simp
        rw [if_neg h1]
        have hIH := chainLoopP_go dm tm rest clusters [] x
        simp only [List.nil_append] at hIH
        rw [hIH]
        have h2 : ¬ (2 ≤ ([a] : List (ExifDT × DupRow)).length) := by simp
        simp [List.filter, decide_eq_false h2]
    | cons f fs =>
      show chainLoopP dm tm (x :: rest) clusters (f :: (fs ++ [a])) = _
      rw [chainLoopP, buildRuns]
      have hlast : (f :: (fs ++ [a])).getLast (by simp) = a := by
        simp
      rw [hlast]
      by_cases hp : joinCond dm tm a x
      · rw [if_pos hp, if_pos hp]
        have harr : (f :: (fs ++ [a])) ++ [x] = ((f :: fs) ++ [a]) ++ [x] := by simp
        rw [harr, chainLoopP_go dm tm rest clusters ((f :: fs) ++ [a]) x]
      · rw [if_neg hp, if_neg hp]
        have h1 : 1 < (f :: (fs ++ [a])).length := by simp
        rw [if_pos h1]
        have hIH := chainLoopP_go dm tm rest (clusters ++ [f :: (fs ++ [a])]) [] x
        simp only [List.nil_append] at hIH
        rw [hIH]
        have h2 : 2 ≤ ((f :: fs) ++ [a]).length := by simp
        simp only [List.filter, decide_eq_true h2]
        simp [List.filter]

end GpsForensic

namespace GpsForensic

/-- `buildRuns` is the head-run split of `chunkRuns`, prefixed by the already
accumulated open-cluster front. -/
lemma buildRuns_runsAux (dm : ℝ) (tm : ℤ) :
    ∀ (rest : List (ExifDT × DupRow)) (front : List (ExifDT × DupRow)) (a : ExifDT × DupRow),
      buildRuns dm tm front a rest =
        (front ++ (runsAux (joinCond dm tm) a rest).1) :: (runsAux (joinCond dm tm) a rest).2
  | [], front, a => by
    rw [buildRuns, runsAux]
  | x :: rest, front, a => by
    rw [buildRuns, runsAux]
    by_cases hp : joinCond dm tm a x
    · rw [if_pos hp, if_pos hp, buildRuns_runsAux dm tm rest (front ++ [a]) x]
      simp
    · rw [if_neg hp, if_neg hp, buildRuns_runsAux dm tm rest [] x]
      simp

/-- From-scratch chaining equals the size-filtered run decomposition. -/
lemma chainLoopP_spec (dm : ℝ) (tm : ℤ) :
    ∀ es : List (ExifDT × DupRow),
      chainLoopP dm tm es [] [] =
        (chunkRuns (joinCond dm tm) es).filter (fun r => decide (2 ≤ r.length))
  | [] => by
    rw [chainLoopP, chunkRuns]
    simp
  | x :: rest => by
    rw [chainLoopP]
    have hgo := chainLoopP_go dm tm rest [] [] x
    simp only [List.nil_append] at hgo
    rw [hgo, buildRuns_runsAux dm tm rest [] x, chunkRuns]
    simp

end GpsForensic

namespace GpsForensic

/-- The stamping loop with an explicit starting index. -/
def stampFrom (n : ℕ) : List (List (ExifDT × DupRow)) → List OutRow
  | [] => []
  | cl :: rest => cl.map (fun x => OutRow.mk x.2 (n + 1) cl.length) ++ stampFrom (n + 1) rest

/-- `stampClusters` is `stampFrom 0`. -/
lemma stampClusters_eq_from (clusters : List (List (ExifDT × DupRow))) :
    stampClusters clusters = stampFrom 0 clusters := by
  have key : ∀ (cls : List (List (ExifDT × DupRow))) (n : ℕ),
      ((cls.enumFrom n).map (fun p => p.2.map (fun x => OutRow.mk x.2 (p.1 + 1) p.2.length))).flatten =
        stampFrom n cls := by
    intro cls
    induction cls with
    | nil => intro n; rfl
    | cons c rest ih =>
      intro n
      simp only [List.enumFrom, List.map_cons, List.flatten_cons, stampFrom]
      rw [ih (n + 1)]
  exact key clusters 0

/-- Every stamped row comes from some cluster, with the matching id and
size. -/
lemma mem_stampFrom : ∀ (clusters : List (List (ExifDT × DupRow))) (n : ℕ)
    (o : OutRow), o ∈ stampFrom n clusters →
    ∃ i cl x, clusters.get? i = some cl ∧ x ∈ cl ∧ o = OutRow.mk x.2 (n + i + 1) cl.length
  | [], n, o, h => by
    cases h
  | cl :: rest, n, o, h => by
    rcases List.mem_append.mp h with h1 | h2
    · obtain ⟨x, hx, rfl⟩ := List.mem_map.mp h1
      exact ⟨0, cl, x, rfl, hx, by simp⟩
    · obtain ⟨i, cl2, x, hget, hx, ho⟩ := mem_stampFrom rest (n + 1) o h2
      exact ⟨i + 1, cl2, x, hget, hx, by rw [ho]; congr 1; omega⟩

/-- Segments with larger starting indices contain no row with a small id. -/
lemma stampFrom_filter_small : ∀ (clusters : List (List (ExifDT × DupRow))) (n j : ℕ),
    j + 1 ≤ n →
    (stampFrom n clusters).filter (fun o => decide (o.cluster_id = j + 1)) = []
  | [], _, _, _ => rfl
  | cl :: rest, n, j, hj => by
    rw [stampFrom, List.filter_append, stampFrom_filter_small rest (n + 1) j (by omega)]
    rw [List.append_nil, List.filter_eq_nil_iff]
    intro o ho
    obtain ⟨x, hx, rfl⟩ := List.mem_map.mp ho
    simp only [decide_eq_true_eq]
    omega

/-- Counting rows with a given id yields exactly the size of that cluster. -/
lemma stampFrom_filter_count : ∀ (clusters : List (List (ExifDT × DupRow))) (n i : ℕ)
    (cl : List (ExifDT × DupRow)), clusters.get? i = some cl →
    ((stampFrom n clusters).filter (fun o => decide (o.cluster_id = n + i + 1))).length =
      cl.length
  | [], _, i, cl, h => by
    cases h
  | c :: rest, n, i, cl, h => by
    cases i with
    | zero =>
      cases h
      rw [stampFrom, List.filter_append]
      have h1 : List.filter (fun o => decide (o.cluster_id = n + 0 + 1))
          (c.map (fun x => OutRow.mk x.2 (n + 1) c.length)) =
          c.map (fun x => OutRow.mk x.2 (n + 1) c.length) := by
        rw [List.filter_eq_self]
        intro o ho
        obtain ⟨x, hx, rfl⟩ := List.mem_map.mp ho
        simp
      have h2 := stampFrom_filter_small rest (n + 1) n (by omega)
      have h3 : (n + 1 : ℕ) = n + 0 + 1 := by omega
      rw [h3] at h2
      rw [h1, h2, List.append_nil, List.length_map]
    | succ i2 =>
      have hget : rest.get? i2 = some cl := h
      rw [stampFrom, List.filter_append]
      have h1 : List.filter (fun o => decide (o.cluster_id = n + (i2 + 1) + 1))
          (c.map (fun x => OutRow.mk x.2 (n + 1) c.length)) = [] := by
        rw [List.filter_eq_nil_iff]
        intro o ho
        obtain ⟨x, hx, rfl⟩ := List.mem_map.mp ho
        simp only [decide_eq_true_eq]
        omega
      have h2 := stampFrom_filter_count rest (n + 1) i2 cl hget
      have h3 : (n + 1) + i2 + 1 = n + (i2 + 1) + 1 := by omega
      rw [h3] at h2
      rw [h1, List.nil_append, h2]

end GpsForensic

namespace GpsForensic

/-- The sort relation extracted from the comparator is the ascending-time
order. -/
lemma timeRel_iff (x y : ExifDT × DupRow) : timeRel x y ↔ timeLe x y := by
  simp [timeRel, timeLtb, timeLe, not_lt]

instance : IsTotal (ExifDT × DupRow) timeRel :=
  ⟨fun a b => by
    rcases le_total (exifInst a.1) (exifInst b.1) with h | h
    · exact Or.inl ((timeRel_iff a b).mpr h)
    · exact Or.inr ((timeRel_iff b a).mpr h)⟩

instance : IsTrans (ExifDT × DupRow) timeRel :=
  ⟨fun a b c hab hbc => (timeRel_iff a c).mpr
    (le_trans ((timeRel_iff a b).mp hab) ((timeRel_iff b c).mp hbc))⟩

end GpsForensic

open GpsForensic in
/-- C8 (confirmed): whenever `detect_duplicates` returns, the rows whose
candidate timestamp field fails to parse have been dropped (`enrich`), the
rest sorted ascending by parsed time, and the output is exactly the greedy
chaining against the immediately preceding chained record with both
thresholds, keeping only clusters of at least two members, stamped with
1-based ids in encounter order and with `cluster_size` equal to the number of
output rows sharing the id. -/
theorem claim_C8_detect_duplicates
    (rows : List DupRow) (dm : ℝ) (tm : ℤ) (out : List OutRow)
    (h : detect_duplicates rows dm tm = .ok out) :
    ∃ es,
      pySort (fun x y => pyLtExif x.1 y.1) (enrich rows) = .ok es ∧
      es.Perm (enrich rows) ∧
      List.Sorted timeLe es ∧
      out = stampClusters
          ((chunkRuns (joinCond dm tm) es).filter (fun r => decide (2 ≤ r.length))) ∧
      (∀ cl ∈ (chunkRuns (joinCond dm tm) es).filter (fun r => decide (2 ≤ r.length)),
        2 ≤ cl.length ∧ List.Chain' (joinCond dm tm) cl) ∧
      (∀ o ∈ out, 1 ≤ o.cluster_id ∧ 2 ≤ o.cluster_size ∧
        o.cluster_size =
          (out.filter (fun o2 => decide (o2.cluster_id = o.cluster_id))).length) := by
  unfold detect_duplicates at h
  rcases hs : pySort (fun x y => pyLtExif x.1 y.1) (enrich rows) with e | es
  · rw [hs] at h
    simp only [bind, Except.bind] at h
    cases h
  · rw [hs] at h
    simp only [bind, Except.bind] at h
    obtain ⟨k, hk⟩ : ∃ k, ∀ x ∈ enrich rows, kindOf x = k := by
      cases es with
      | nil =>
        have hlen := pySort_ok_length hs
        simp only [List.length_nil] at hlen
        refine ⟨true, fun x hx => ?_⟩
        rw [List.length_eq_zero.mp hlen.symm] at hx
        cases hx
      | cons a t =>
        have ha : a ∈ enrich rows := pySort_ok_mem hs a (List.mem_cons_self a t)
        exact ⟨kindOf a, fun x hx => pySort_sameKind hs x hx a ha⟩
    have hkes : ∀ x ∈ es, kindOf x = k := fun x hx => hk x (pySort_ok_mem hs x hx)
    have hpure := chainLoop_eq_pure dm tm k es [] [] hkes
      (fun x hx => absurd hx (List.not_mem_nil x))
    rw [hpure] at h
    simp only [bind, Except.bind, pure, Except.pure] at h
    rw [chainLoopP_spec dm tm es] at h
    have hout : stampClusters
        ((chunkRuns (joinCond dm tm) es).filter (fun r => decide (2 ≤ r.length))) = out :=
      Except.ok.inj h
    subst hout
    have hes : es = List.insertionSort timeRel (enrich rows) := by
      have h2 := @pySort_ok (ExifDT × DupRow) PyErr (fun x y => pyLtExif x.1 y.1) timeLtb
          (fun z => kindOf z = k) (pyLtExif_comp k) (enrich rows) hk
      exact Except.ok.inj (hs.symm.trans h2)
    refine ⟨es, hs, ?_, ?_, rfl, ?_, ?_⟩
    · rw [hes]
      exact List.perm_insertionSort timeRel (enrich rows)
    · rw [hes]
      exact List.Pairwise.imp (fun hab => (timeRel_iff _ _).mp hab)
        (List.sorted_insertionSort timeRel (enrich rows))
    · intro cl hcl
      have h1 := List.mem_filter.mp hcl
      exact ⟨of_decide_eq_true h1.2, (chunkRuns_chain (joinCond dm tm) es cl h1.1).1⟩
    · intro o ho
      rw [stampClusters_eq_from] at ho
      obtain ⟨i, cl, x, hget, hx, rfl⟩ := mem_stampFrom _ 0 o ho
      have hclmem : cl ∈ (chunkRuns (joinCond dm tm) es).filter
          (fun r => decide (2 ≤ r.length)) := List.get?_mem hget
      have h2 : 2 ≤ cl.length := of_decide_eq_true (List.mem_filter.mp hclmem).2
      refine ⟨?_, h2, ?_⟩
      · show 1 ≤ 0 + i + 1
        omega
      · rw [stampClusters_eq_from]
        exact (stampFrom_filter_count _ 0 i cl hget).symm

open GpsForensic in
/-- Witness for C8: a single record with a parseable timestamp forms no
cluster of size two, so `detect_duplicates` returns the empty report, and
the characterization holds of it. -/
theorem claim_C8_detect_duplicates_witness :
    ∃ es,
      pySort (fun x y => pyLtExif x.1 y.1)
          (enrich [⟨("2024:01:01 10:00:00").data, [], 0, 0⟩]) = .ok es ∧
      es.Perm (enrich [⟨("2024:01:01 10:00:00").data, [], 0, 0⟩]) ∧
      List.Sorted timeLe es ∧
      ([] : List OutRow) = stampClusters
          ((chunkRuns (joinCond 5 10) es).filter (fun r => decide (2 ≤ r.length))) ∧
      (∀ cl ∈ (chunkRuns (joinCond 5 10) es).filter (fun r => decide (2 ≤ r.length)),
        2 ≤ cl.length ∧ List.Chain' (joinCond 5 10) cl) ∧
      (∀ o ∈ ([] : List OutRow), 1 ≤ o.cluster_id ∧ 2 ≤ o.cluster_size ∧
        o.cluster_size =
          (([] : List OutRow).filter
            (fun o2 => decide (o2.cluster_id = o.cluster_id))).length) :=
  claim_C8_detect_duplicates [⟨("2024:01:01 10:00:00").data, [], 0, 0⟩] 5 10 [] (by rfl)
